import Mathlib

/-!
# Content-encoding handler of undici: embedding and verification

Shallow embedding of `lib/handler/content-encoding-handler.js`
(`ContentEncodingHandler`) and of `lib/interceptor/content-encoding.js`.

* A `Buffer` is a list of bytes, a JavaScript string a list of UTF-16 code units.
* `onHeaders`, `onData`, `onComplete` and the listeners that `onHeaders` registers
  are functions from the handler state to an `Outcome`: the next state, the calls
  made on the collaborators (downstream handler, upstream `resume`, pipeline head)
  and the returned value or thrown error.
* What the collaborators answer (the value a downstream callback returns, the
  value `write` returns) is an argument of the operation, so every statement
  quantifies over all collaborator behaviours.
-/

namespace ContentEncoding

/-! ## Buffers and strings -/

/-- A Node `Buffer`: a sequence of bytes. -/
abbrev Buffer := List (Fin 256)

/-- A JavaScript string: a sequence of UTF-16 code units. -/
abbrev JsString := List Nat

/-- The code units of a literal written in the source. -/
def str (s : String) : JsString := s.toList.map Char.toNat

/-- The bytes of an ASCII literal, for writing header sets down. -/
def bytes (s : String) : Buffer := s.toList.map (fun c => Fin.ofNat c.toNat)

/-- `buf.toString('latin1')`: every byte becomes the code unit of the same value. -/
def latin1 (b : Buffer) : JsString := b.map Fin.val

/-- Lower-casing of one code unit of the Latin-1 range (all that `latin1` produces):
`A`-`Z` and the capitals `U+00C0`-`U+00DE` other than the multiplication sign
`U+00D7` move up by 32, every other unit is kept. -/
def lowerUnit (c : Nat) : Nat :=
  if 65 ≤ c ∧ c ≤ 90 then c + 32
  else if 192 ≤ c ∧ c ≤ 222 ∧ c ≠ 215 then c + 32
  else c

/-- `String.prototype.toLowerCase` on a Latin-1 string. -/
def toLowerCase (s : JsString) : JsString := s.map lowerUnit

/-- The regular-expression class `\s`: the white space and line terminator
code units of ECMAScript. -/
def isWhiteSpace (c : Nat) : Bool :=
  (9 ≤ c && c ≤ 13) || c == 32 || c == 160 || c == 5760 ||
  (8192 ≤ c && c ≤ 8202) || c == 8232 || c == 8233 || c == 8239 ||
  c == 8287 || c == 12288 || c == 65279

/-- The code unit of the comma. -/
def comma : Nat := 44

/-- A sticky match of `/\s*,\s*/` at the start of `s`: the input left after the
match. Both `\s*` are greedy, and since `\s` never matches a comma no
backtracking can turn a failure into a match. -/
def matchSeparator (s : JsString) : Option JsString :=
  match s.dropWhile isWhiteSpace with
  | c :: rest => if c = comma then some (rest.dropWhile isWhiteSpace) else none
  | [] => none

/-- The loop of `RegExp.prototype[Symbol.split]` for `/\s*,\s*/`: `cur` is the
text between the end of the last match and the scan position, `s` the text from
the scan position on. The first argument bounds the number of iterations. -/
def splitLoop : Nat → JsString → JsString → List JsString
  | 0, cur, _ => [cur]
  | fuel + 1, cur, s =>
    match s with
    | [] => [cur]
    | c :: t =>
      match matchSeparator (c :: t) with
      | some rest => cur :: splitLoop fuel [] rest
      | none => splitLoop fuel (cur ++ [c]) t

/-- `s.split(/\s*,\s*/)`. Every iteration consumes at least one code unit, so
`s.length + 1` iterations always reach the end of the input. -/
def split (s : JsString) : List JsString := splitLoop (s.length + 1) [] s

/-! ## Decoder stages -/

/-- The flush modes passed to the zlib constructors. -/
inductive FlushMode
  | Z_SYNC_FLUSH
  | BROTLI_OPERATION_FLUSH
  deriving DecidableEq, Repr

/-- The three decompression classes of `node:zlib` the handler instantiates. -/
inductive ZlibKind
  | Gunzip
  | Inflate
  | BrotliDecompress
  deriving DecidableEq, Repr

/-- A decoder stage: a zlib stream with the options it was created with. -/
structure ZlibStream where
  kind : ZlibKind
  flush : FlushMode
  finishFlush : FlushMode
  deriving DecidableEq, Repr

/-- The stage built by `zlib.createGunzip` with the given options. -/
def createGunzip (flush finishFlush : FlushMode) : ZlibStream :=
  ⟨.Gunzip, flush, finishFlush⟩

/-- The stage built by `zlib.createInflate` with the given options. -/
def createInflate (flush finishFlush : FlushMode) : ZlibStream :=
  ⟨.Inflate, flush, finishFlush⟩

/-- The stage built by `zlib.createBrotliDecompress` with the given options. -/
def createBrotliDecompress (flush finishFlush : FlushMode) : ZlibStream :=
  ⟨.BrotliDecompress, flush, finishFlush⟩

/-- Errors thrown by `onHeaders`. -/
inductive JsError
  /-- The value thrown by `new Error(message)`. -/
  | Error (message : JsString)
  /-- Reading `.toString` of the `undefined` found past the end of the header array. -/
  | TypeError
  deriving DecidableEq, Repr

deriving instance DecidableEq for Except

/-- The inner loop of `onHeaders` (lines 21-39): `for (let i = codings.length - 1;
i >= 0; i--)`. The numeric argument is `i + 1`; `decoders` is the array being
pushed to. -/
def codingLoop (ignoreUnknown : Bool) (codings : List JsString) :
    Nat → List ZlibStream → Except JsError (List ZlibStream)
  | 0, decoders => .ok decoders
  | i + 1, decoders =>
    let coding := codings.getD i []
    if coding = str "gzip" ∨ coding = str "x-gzip" then
      codingLoop ignoreUnknown codings i
        (decoders ++ [createGunzip .Z_SYNC_FLUSH .Z_SYNC_FLUSH])
    else if coding = str "deflate" then
      codingLoop ignoreUnknown codings i
        (decoders ++ [createInflate .Z_SYNC_FLUSH .Z_SYNC_FLUSH])
    else if coding = str "br" then
      codingLoop ignoreUnknown codings i
        (decoders ++ [createBrotliDecompress .BROTLI_OPERATION_FLUSH .BROTLI_OPERATION_FLUSH])
    else if !ignoreUnknown then
      .error (.Error (str "Invalid coding: " ++ coding))
    else
      codingLoop ignoreUnknown codings i decoders

/-- Modelled from the spec: `util.headerNameToString` of `lib/core/util.js`, which
is not among the sources. The spec says header-name matching is case-insensitive:
the name is read as Latin-1 and lower-cased. -/
def headerNameToString (name : Buffer) : JsString := toLowerCase (latin1 name)

/-- The test of line 19 on a header name. -/
def isContentEncoding (name : Buffer) : Bool :=
  name.length == 16 && headerNameToString name == str "content-encoding"

/-- The outer loop of `onHeaders` (lines 17-42) over the flat header array
`[name, value, name, value, ...]`, two entries at a time, stopping (`break`) at the
first name that passes the test. -/
def selectDecoders (ignoreUnknown : Bool) : List Buffer → Except JsError (List ZlibStream)
  | [] => .ok []
  | name :: [] =>
    if isContentEncoding name then .error .TypeError else .ok []
  | name :: value :: rest =>
    if isContentEncoding name then
      let codings := split (toLowerCase (latin1 value))
      codingLoop ignoreUnknown codings codings.length []
    else
      selectDecoders ignoreUnknown rest

/-! ## The handler -/

/-- The values a callback may return: `undefined`, a boolean, or any other value
(told apart by a tag). -/
inductive JsValue
  | undefined
  | boolean (b : Bool)
  | other (tag : Nat)
  deriving DecidableEq, Repr

/-- The argument of `onComplete`: `this.trailers` is `undefined` until assigned. -/
inductive Trailers
  | undefined
  | null
  | raw (entries : List Buffer)
  deriving DecidableEq, Repr

/-- The `resume` function handed to `onHeaders`, known by an identifier. -/
abbrev ResumeFn := Nat

/-- An error object raised by a stream, known by its message. -/
abbrev StreamError := JsString

/-- A function passed on as the `resume` argument: the function `onHeaders`
received itself, or the wrapper of lines 66-69 built around it. -/
inductive ResumeArg
  | original (fn : ResumeFn)
  | wrapper (fn : ResumeFn)
  deriving DecidableEq, Repr

/-- The calls the handler makes on its collaborators. -/
inductive Effect
  /-- The downstream handler's `onHeaders`, with the function passed as its
  third argument. -/
  | downstreamOnHeaders (statusCode : Nat) (headers : List Buffer) (resume : ResumeArg)
      (statusText : JsString)
  /-- The downstream handler's `onData`. -/
  | downstreamOnData (chunk : Buffer)
  /-- The downstream handler's `onComplete`. -/
  | downstreamOnComplete (trailers : Trailers)
  /-- The downstream handler's `onError`. -/
  | downstreamOnError (err : StreamError)
  /-- A call of the `resume` function received by `onHeaders`. -/
  | resume (fn : ResumeFn)
  /-- The call `this.decoder.write(chunk)`. -/
  | write (chunk : Buffer)
  /-- The call `this.decoder.end()`. -/
  | decoderEnd
  deriving DecidableEq, Repr

/-- What lines 43-65 build: `this.decoder`, the stages chained behind it by
`pipeline`, and the `resume` the drain listener closes over. -/
structure Pipeline where
  decoder : ZlibStream
  rest : List ZlibStream
  resume : ResumeFn
  deriving DecidableEq, Repr

/-- The object state of a `ContentEncodingHandler`. -/
structure Handler where
  ignoreUnknown : Bool
  paused : Bool
  decoder : Option Pipeline
  trailers : Trailers
  deriving DecidableEq, Repr

/-- The options object of the constructor; `none` is an absent property. -/
structure Options where
  ignoreUnknown : Option Bool
  deriving DecidableEq, Repr

/-- The constructor (lines 9-14): `#paused = false`, `ignoreUnknown` defaults to
`false` when the options or the property are missing. -/
def construct (opts : Option Options) : Handler :=
  { ignoreUnknown := ((opts.getD ⟨none⟩).ignoreUnknown).getD false
    paused := false
    decoder := none
    trailers := .undefined }

/-- The stages in feeding order: the head receives the raw bytes. -/
def Handler.stages (h : Handler) : List ZlibStream :=
  match h.decoder with
  | none => []
  | some p => p.decoder :: p.rest

/-- The result of one operation: next state, calls made, value returned or error
thrown. -/
structure Outcome where
  state : Handler
  effects : List Effect
  result : Except JsError JsValue
  deriving DecidableEq

/-- Modelled from the spec: `DecoratorHandler.onHeaders` of
`lib/handler/decorator-handler.js`, which is not among the sources; the spec says
the decorator exposes the identical contract to the downstream consumer, so
`super.onHeaders` is the downstream handler's `onHeaders`. -/
def superOnHeaders (statusCode : Nat) (headers : List Buffer) (resume : ResumeArg)
    (statusText : JsString) : List Effect :=
  [.downstreamOnHeaders statusCode headers resume statusText]

/-- Modelled from the spec: `DecoratorHandler.onData` (not among the sources),
the downstream handler's `onData`. -/
def superOnData (chunk : Buffer) : List Effect := [.downstreamOnData chunk]

/-- Modelled from the spec: `DecoratorHandler.onComplete` (not among the sources),
the downstream handler's `onComplete`. -/
def superOnComplete (trailers : Trailers) : List Effect := [.downstreamOnComplete trailers]

/-- Modelled from the spec: `DecoratorHandler.onError` (not among the sources),
which `ContentEncodingHandler` inherits: the downstream handler's `onError`. -/
def onError (h : Handler) (err : StreamError) : Outcome :=
  ⟨h, [.downstreamOnError err], .ok .undefined⟩

/-- Lines 43-65 of `onHeaders`: when `decoders` is not empty its first element
becomes `this.decoder`, the others are chained behind it, and the listeners are
registered (their bodies are `onDrain`, `onDestinationData`, `onDestinationEnd`,
`onDestinationError` and `onPipelineCallback` below). -/
def buildPipeline (h : Handler) (resume : ResumeFn) : List ZlibStream → Handler
  | [] => h
  | d :: rest => { h with decoder := some ⟨d, rest, resume⟩ }

/-- The method `onHeaders` (lines 16-70). `downRet` is what the downstream
`onHeaders` returns. A throw leaves the object untouched and makes no call. -/
def onHeaders (h : Handler) (statusCode : Nat) (headers : List Buffer) (resume : ResumeFn)
    (statusText : JsString) (downRet : JsValue) : Outcome :=
  match selectDecoders h.ignoreUnknown headers with
  | .error e => ⟨h, [], .error e⟩
  | .ok decoders =>
    ⟨buildPipeline h resume decoders,
      superOnHeaders statusCode headers (.wrapper resume) statusText, .ok downRet⟩

/-- The method `onData` (lines 72-74). `writeRet` is what `this.decoder.write`
returns, `downRet` what the downstream `onData` returns. -/
def onData (h : Handler) (chunk : Buffer) (writeRet : Bool) (downRet : JsValue) : Outcome :=
  match h.decoder with
  | some _ => ⟨h, [.write chunk], .ok (.boolean (writeRet && !h.paused))⟩
  | none => ⟨h, superOnData chunk, .ok downRet⟩

/-- The method `onComplete` (lines 76-83). -/
def onComplete (h : Handler) (trailers : Trailers) : Outcome :=
  match h.decoder with
  | some _ => ⟨{ h with trailers := trailers }, [.decoderEnd], .ok .undefined⟩
  | none => ⟨h, superOnComplete trailers, .ok .undefined⟩

/-- The listener of the head's drain event (lines 45-49). -/
def onDrain (h : Handler) : Outcome :=
  match h.decoder with
  | some p => ⟨h, if !h.paused then [.resume p.resume] else [], .ok .undefined⟩
  | none => ⟨h, [], .ok .undefined⟩

/-- The listener of the tail's data event (lines 59-61). -/
def onDestinationData (h : Handler) (chunk : Buffer) (downRet : JsValue) : Outcome :=
  match h.decoder with
  | some _ =>
    ⟨{ h with paused := decide (downRet = .boolean false) }, superOnData chunk, .ok .undefined⟩
  | none => ⟨h, [], .ok .undefined⟩

/-- The listener of the tail's end event (lines 62-64). -/
def onDestinationEnd (h : Handler) : Outcome :=
  match h.decoder with
  | some _ => ⟨h, superOnComplete h.trailers, .ok .undefined⟩
  | none => ⟨h, [], .ok .undefined⟩

/-- The listener of the tail's error event (line 58): `this.onError`. -/
def onDestinationError (h : Handler) (err : StreamError) : Outcome :=
  match h.decoder with
  | some _ => onError h err
  | none => ⟨h, [], .ok .undefined⟩

/-- The callback given to `pipeline` (lines 51-55); it exists only when at least
one stage is chained behind the head. -/
def onPipelineCallback (h : Handler) (err : Option StreamError) : Outcome :=
  match h.decoder with
  | some p =>
    match p.rest, err with
    | _ :: _, some e => onError h e
    | _, _ => ⟨h, [], .ok .undefined⟩
  | none => ⟨h, [], .ok .undefined⟩

/-- The wrapper handed downstream in place of `resume` (lines 66-69). -/
def resumeHook (h : Handler) (resume : ResumeFn) : Outcome :=
  ⟨{ h with paused := false }, [.resume resume], .ok .undefined⟩

/-- What can happen to a handler: a call of one of its methods, an event of the
pipeline, or the downstream consumer invoking the resume wrapper. -/
inductive Event
  | onHeaders (statusCode : Nat) (headers : List Buffer) (resume : ResumeFn)
      (statusText : JsString) (downRet : JsValue)
  | onData (chunk : Buffer) (writeRet : Bool) (downRet : JsValue)
  | onComplete (trailers : Trailers)
  | drain
  | data (chunk : Buffer) (downRet : JsValue)
  | tailEnd
  | error (err : StreamError)
  | pipelineCallback (err : Option StreamError)
  | resumeHook (resume : ResumeFn)
  deriving DecidableEq, Repr

/-- The handler's reaction to one event. -/
def step (h : Handler) : Event → Outcome
  | .onHeaders statusCode headers resume statusText downRet =>
    onHeaders h statusCode headers resume statusText downRet
  | .onData chunk writeRet downRet => onData h chunk writeRet downRet
  | .onComplete trailers => onComplete h trailers
  | .drain => onDrain h
  | .data chunk downRet => onDestinationData h chunk downRet
  | .tailEnd => onDestinationEnd h
  | .error err => onDestinationError h err
  | .pipelineCallback err => onPipelineCallback h err
  | .resumeHook resume => resumeHook h resume

/-- The outcomes of a sequence of events, one per event, in order. -/
def trace (h : Handler) : List Event → List Outcome
  | [] => []
  | e :: es => step h e :: trace (step h e).state es

/-- The state after a sequence of events. -/
def run (h : Handler) : List Event → Handler
  | [] => h
  | e :: es => run (step h e).state es

/-- All calls made during a sequence of events, in order. -/
def effectsOf (h : Handler) (es : List Event) : List Effect :=
  (trace h es).flatMap Outcome.effects

/-! ## Vocabulary of the specification -/

/-- The table of the specification: `gzip` and `x-gzip` select the gunzip
decoder, `deflate` the inflate decoder, `br` the brotli decoder; anything else is
unknown. -/
def codingTable (token : JsString) : Option ZlibStream :=
  if token = str "gzip" then some (createGunzip .Z_SYNC_FLUSH .Z_SYNC_FLUSH)
  else if token = str "x-gzip" then some (createGunzip .Z_SYNC_FLUSH .Z_SYNC_FLUSH)
  else if token = str "deflate" then some (createInflate .Z_SYNC_FLUSH .Z_SYNC_FLUSH)
  else if token = str "br" then
    some (createBrotliDecompress .BROTLI_OPERATION_FLUSH .BROTLI_OPERATION_FLUSH)
  else none

/-- The value of the content-encoding entry of a header set: that of the first
entry whose name is `content-encoding` in any letter case. -/
def contentEncodingValue : List Buffer → Option Buffer
  | name :: value :: rest =>
    if isContentEncoding name then some value else contentEncodingValue rest
  | _ => none

/-- The coding tokens of a header value: lower-cased, then split. -/
def codingTokens (value : Buffer) : List JsString := split (toLowerCase (latin1 value))

/-- The inner loop seen as a walk over the tokens in visiting order (last token
first): recognized tokens push their stage, unknown ones throw or are skipped. -/
def visitCodings (ignoreUnknown : Bool) :
    List JsString → List ZlibStream → Except JsError (List ZlibStream)
  | [], decoders => .ok decoders
  | coding :: more, decoders =>
    match codingTable coding with
    | some d => visitCodings ignoreUnknown more (decoders ++ [d])
    | none =>
      if ignoreUnknown then visitCodings ignoreUnknown more decoders
      else .error (.Error (str "Invalid coding: " ++ coding))

/-- The upstream producer delivering a sequence of chunks: one `onData` call per
chunk, each with what `write` and the downstream `onData` answer. -/
def onDataCalls (calls : List (Buffer × Bool × JsValue)) : List Event :=
  calls.map (fun c => .onData c.1 c.2.1 c.2.2)

/-- Whether some entry of the header set is named `content-encoding`. -/
def hasContentEncoding : List Buffer → Bool
  | [] => false
  | name :: [] => isContentEncoding name
  | name :: _ :: rest => isContentEncoding name || hasContentEncoding rest

/-- A token no branch of lines 23-37 accepts. -/
def unrecognized (token : JsString) : Prop :=
  token ≠ str "gzip" ∧ token ≠ str "x-gzip" ∧ token ≠ str "deflate" ∧ token ≠ str "br"

instance (token : JsString) : Decidable (unrecognized token) := by
  unfold unrecognized; infer_instance

/-- What a chain of stages delivers for the bytes fed to its head, for codecs
given as functions on whole byte sequences: the output of each stage is the
input of the next (the linking done by `pipeline(this.decoder, ...decoders)`). -/
def feed (decode : ZlibKind → Buffer → Buffer) (stages : List ZlibStream)
    (input : Buffer) : Buffer :=
  stages.foldl (fun acc s => decode s.kind acc) input

/-- The body a sender produces by applying the listed codings in order, the first
listed innermost. -/
def applyCodings (encode : ZlibKind → Buffer → Buffer) (tokens : List JsString)
    (payload : Buffer) : Buffer :=
  tokens.foldl
    (fun acc t =>
      match codingTable t with
      | some s => encode s.kind acc
      | none => acc)
    payload

/-- The byte that names a codec in the toy codec below. -/
def codecTag : ZlibKind → Fin 256
  | .Gunzip => 1
  | .Inflate => 2
  | .BrotliDecompress => 3

/-- A toy codec: encoding prepends the byte naming the codec. -/
def tagEncode (k : ZlibKind) (x : Buffer) : Buffer := codecTag k :: x

/-- The decoder of the toy codec: it accepts only input that starts with its own
byte, which it removes; on any other input it yields nothing. -/
def tagDecode (k : ZlibKind) : Buffer → Buffer
  | b :: rest => if b = codecTag k then rest else []
  | [] => []

/-- Lower-casing of one byte. -/
def lowerByte (b : Fin 256) : Fin 256 := Fin.ofNat (lowerUnit b.val)

/-- Whether every byte of `w` is white space for `\s`. -/
def whiteSpaceOnly (w : Buffer) : Bool := w.all (fun b => isWhiteSpace b.val)

/-- A header value written out: a first token, then for every further token the
white space before the comma, the white space after it, and the token. -/
def renderValue : Buffer → List (Buffer × Buffer × Buffer) → Buffer
  | t0, [] => t0
  | t0, (w1, w2, t) :: more => t0 ++ w1 ++ [44] ++ w2 ++ renderValue t more

/-- The plain form of a header value: the same tokens in lower case, separated
by bare commas. -/
def plainValue (t0 : Buffer) (items : List (Buffer × Buffer × Buffer)) : Buffer :=
  renderValue (t0.map lowerByte) (items.map (fun i => ([], [], i.2.2.map lowerByte)))

/-- The chunks the pipeline tail emits during a sequence of events. -/
def emitted : List Event → List Buffer
  | [] => []
  | .data chunk _ :: es => chunk :: emitted es
  | _ :: es => emitted es

/-- The chunks handed to the downstream `onData` among a sequence of calls. -/
def deliveries : List Effect → List Buffer
  | [] => []
  | .downstreamOnData chunk :: fx => chunk :: deliveries fx
  | _ :: fx => deliveries fx

/-- Whether an outcome hands a chunk to the downstream `onData`. -/
def delivers (o : Outcome) : Bool := deliveries o.effects != []

/-- The answer of the downstream `onData` during an event, when it is called. -/
def downstreamAnswer : Event → Option JsValue
  | .data _ downRet => some downRet
  | .onData _ _ downRet => some downRet
  | _ => none

/-- The backpressure rule of the specification, checked along a run: `waiting`
holds from a downstream `onData` call that returned `false` until the resume hook
is invoked; the result is `true` when no chunk is delivered while `waiting`. -/
def pauseRespected (h : Handler) (waiting : Bool) : List Event → Bool
  | [] => true
  | e :: es =>
    if waiting && delivers (step h e) then false
    else
      pauseRespected (step h e).state
        (match e with
          | .resumeHook _ => false
          | _ =>
            if delivers (step h e) && decide (downstreamAnswer e = some (.boolean false))
            then true else waiting)
        es

/-- The listener calls Node makes when the last stage of the chain raises `err`:
the stage emits its error event, received by the listener of line 58; when the
chain was built by `pipeline` (two stages or more) the completion callback of
lines 51-55 is called with the same error as well. -/
def tailStageFails (h : Handler) (err : StreamError) : List Event :=
  match h.decoder with
  | some p =>
    match p.rest with
    | [] => [.error err]
    | _ :: _ => [.error err, .pipelineCallback (some err)]
  | none => []

/-- The number of downstream `onError` calls among a sequence of calls. -/
def errorCount : List Effect → Nat
  | [] => 0
  | .downstreamOnError _ :: fx => errorCount fx + 1
  | _ :: fx => errorCount fx

/-- The header name used in the examples. -/
def contentEncodingName : Buffer := bytes "Content-Encoding"

/-- A fresh handler after `onHeaders` with `Content-Encoding: gzip`. -/
def gzipHandler : Handler :=
  (onHeaders (construct none) 200 [contentEncodingName, bytes "gzip"] 0 (str "OK")
    .undefined).state

/-- A fresh handler after `onHeaders` with `Content-Encoding: deflate, gzip`. -/
def deflateGzipHandler : Handler :=
  (onHeaders (construct none) 200 [contentEncodingName, bytes "deflate, gzip"] 0 (str "OK")
    .undefined).state

/-- The split loop started with the iterations `split` gives it. -/
def splitFrom (cur s : JsString) : List JsString := splitLoop (s.length + 1) cur s

/-- A header value read as Latin-1 and lower-cased, as on line 20. -/
def lowered (value : Buffer) : JsString := toLowerCase (latin1 value)

/-! ## The interceptor -/

/-- The options of one dispatch: `method` is `none` when the property is not a
string; `others` names the remaining properties, which the interceptor does not
read. -/
structure DispatchOptions where
  method : Option JsString
  others : Nat
  deriving DecidableEq, Repr

/-- The handler the interceptor passes on: the one it was given, or a
`new ContentEncodingHandler(handler, opts)` around it. -/
inductive DispatchHandler (H : Type)
  | original (handler : H)
  | contentEncodingHandler (handler : H) (state : Handler)
  deriving DecidableEq, Repr

/-- The interceptor exported by `lib/interceptor/content-encoding.js`
(lines 5-11). -/
def contentEncoding {H R : Type} (opts : Option Options)
    (dispatch : DispatchOptions → DispatchHandler H → R)
    (dispatchOpts : DispatchOptions) (handler : H) : R :=
  if dispatchOpts.method = some (str "HEAD") ∨ dispatchOpts.method = some (str "CONNECT") then
    dispatch dispatchOpts (.original handler)
  else
    dispatch dispatchOpts (.contentEncodingHandler handler (construct opts))

/-! ## Further vocabulary of the specification -/

/-- Whether, after a sequence of events, the most recent downstream `onData`
call returned `false` and the resume hook has not been invoked since; `flag` is
the answer before the sequence. -/
def lastDeliveryRefused (h : Handler) (flag : Bool) : List Event → Bool
  | [] => flag
  | e :: es =>
    lastDeliveryRefused (step h e).state
      (match e with
        | .resumeHook _ => false
        | _ =>
          if delivers (step h e) then decide (downstreamAnswer e = some (.boolean false))
          else flag)
      es

/-- A header set without its content-encoding entries. -/
def dropContentEncoding : List Buffer → List Buffer
  | name :: value :: rest =>
    if isContentEncoding name then dropContentEncoding rest
    else name :: value :: dropContentEncoding rest
  | rest => rest

/-- A header set without its content-encoding entries other than the first. -/
def keepFirstContentEncoding : List Buffer → List Buffer
  | name :: value :: rest =>
    if isContentEncoding name then name :: value :: dropContentEncoding rest
    else name :: value :: keepFirstContentEncoding rest
  | rest => rest

/-- The number of calls of the upstream `resume` among a sequence of calls. -/
def resumeCount : List Effect → Nat
  | [] => 0
  | .resume _ :: fx => resumeCount fx + 1
  | _ :: fx => resumeCount fx

/-- The number of `write` calls on the pipeline head among a sequence of calls. -/
def writeCount : List Effect → Nat
  | [] => 0
  | .write _ :: fx => writeCount fx + 1
  | _ :: fx => writeCount fx

/-- A gzip pipeline whose consumer has answered `false` to the chunk `a`. -/
def pausedGzipHandler : Handler :=
  (step gzipHandler (.data (bytes "a") (.boolean false))).state

/-! ## A response, end to end -/

/-- The chunks the producer hands to `onData` during a sequence of events. -/
def sent : List Event → List Buffer
  | [] => []
  | .onData chunk _ _ :: es => chunk :: sent es
  | _ :: es => sent es

/-- The chunks written to the pipeline head among a sequence of calls. -/
def written : List Effect → List Buffer
  | [] => []
  | .write chunk :: fx => chunk :: written fx
  | _ :: fx => written fx

/-- What the tail of a chain emits in all, for codecs given as functions on
whole byte sequences, once the calls `fx` have been made on its head: the
decoders applied in feeding order to the bytes written. -/
def chainOutput (decode : ZlibKind → Buffer → Buffer) (stages : List ZlibStream)
    (fx : List Effect) : Buffer :=
  feed decode stages (written fx).flatten

/-- The events of the tail of a chain that has `out` to emit after its head was
ended: one data event when there is something to emit, then the end. -/
def tailEvents (out : Buffer) (answer : JsValue) : List Event :=
  if out = [] then [.tailEnd] else [.data out answer, .tailEnd]

/-- One response body handled by `h` against its chain: the producer calls
`onData` for every chunk and then `onComplete`; the chain emits what its decoders
make of the bytes the handler wrote to its head, and ends. -/
def responseEvents (decode : ZlibKind → Buffer → Buffer) (h : Handler)
    (calls : List (Buffer × Bool × JsValue)) (trailers : Trailers) (answer : JsValue) :
    List Event :=
  onDataCalls calls ++ .onComplete trailers ::
    tailEvents
      (chainOutput decode h.stages (effectsOf h (onDataCalls calls ++ [.onComplete trailers])))
      answer

/-! ## The resume wrapper, statement by statement -/

/-- The wrapper of lines 66-69 with its two statements in order. `resume()` runs
first: `nested` are the calls the producer makes on the handler before `resume()`
returns, and they meet the handler as the wrapper found it. Then
`this.#paused = false` runs. `resumeHook` is the case of a `resume` that returns
without calling back. -/
def resumeHookNested (h : Handler) (resume : ResumeFn) (nested : List Event) : Outcome :=
  ⟨{ run h nested with paused := false }, .resume resume :: effectsOf h nested,
    .ok .undefined⟩

/-- Calling a function that was passed on as the `resume` argument. -/
def invokeResume (h : Handler) (nested : List Event) : ResumeArg → Outcome
  | .original fn => ⟨run h nested, .resume fn :: effectsOf h nested, .ok .undefined⟩
  | .wrapper fn => resumeHookNested h fn nested

/-- The events that are calls of the handler's methods by the producer. -/
def isProducerCall : Event → Bool
  | .onHeaders _ _ _ _ _ => true
  | .onData _ _ _ => true
  | .onComplete _ => true
  | _ => false

/-- What the calls of a sequence return or throw, in order. -/
def nestedResults (h : Handler) (nested : List Event) : List (Except JsError JsValue) :=
  (trace h nested).map Outcome.result

/-- Atomicity of the wrapper with respect to the pause state: the calls made
from inside `resume()` are answered as they are once the flag is cleared. -/
def hookAtomic (h : Handler) (nested : List Event) : Bool :=
  decide (nestedResults h nested = nestedResults { h with paused := false } nested)

/-! ## Coding selection -/

theorem codingLoop_succ (ign : Bool) (codings : List JsString) (i : Nat)
    (ds : List ZlibStream) :
    codingLoop ign codings (i + 1) ds =
      match codingTable (codings.getD i []) with
      | some d => codingLoop ign codings i (ds ++ [d])
      | none =>
        if ign then codingLoop ign codings i ds
        else .error (.Error (str "Invalid coding: " ++ codings.getD i [])) := by
  have e1 : str "x-gzip" ≠ str "gzip" := by decide
  have e2 : str "deflate" ≠ str "gzip" := by decide
  have e3 : str "deflate" ≠ str "x-gzip" := by decide
  have e4 : str "br" ≠ str "gzip" := by decide
  have e5 : str "br" ≠ str "x-gzip" := by decide
  have e6 : str "br" ≠ str "deflate" := by decide
  rw [codingLoop]
  simp only [codingTable]
  generalize codings.getD i [] = c
  by_cases h1 : c = str "gzip"
  · simp [h1]
  · by_cases h2 : c = str "x-gzip"
    · simp [h2, e1]
    · by_cases h3 : c = str "deflate"
      · simp [h3, e2, e3]
      · by_cases h4 : c = str "br"
        · simp [h4, e4, e5, e6]
        · cases ign <;> simp [h1, h2, h3, h4]

theorem codingLoop_eq_visit (ign : Bool) (codings : List JsString) :
    ∀ (n : Nat) (ds : List ZlibStream), n ≤ codings.length →
      codingLoop ign codings n ds = visitCodings ign (codings.take n).reverse ds := by
  intro n
  induction n with
  | zero => intro ds _; simp [codingLoop, visitCodings]
  | succ n ih =>
    intro ds hn
    have hlt : n < codings.length := hn
    have hget : codings.getD n [] = codings[n] := by
      simp [List.getD_eq_getElem?_getD, List.getElem?_eq_getElem hlt]
    rw [codingLoop_succ, List.take_succ, List.getElem?_eq_getElem hlt, hget]
    simp only [Option.toList, List.reverse_append, List.reverse_cons, List.reverse_nil,
      List.nil_append, List.singleton_append, visitCodings]
    cases codingTable codings[n] with
    | some d => simp only []; exact ih _ (Nat.le_of_lt hlt)
    | none =>
      cases ign with
      | true => simp only [if_true]; exact ih _ (Nat.le_of_lt hlt)
      | false => simp

theorem visitCodings_recognized (ign : Bool) :
    ∀ (l : List JsString) (ds : List ZlibStream), (∀ t ∈ l, codingTable t ≠ none) →
      visitCodings ign l ds = .ok (ds ++ l.filterMap codingTable) := by
  intro l
  induction l with
  | nil => intro ds _; simp [visitCodings]
  | cons c cs ih =>
    intro ds hall
    have hc : codingTable c ≠ none := hall c (List.mem_cons_self _ _)
    obtain ⟨d, hd⟩ := Option.ne_none_iff_exists'.mp hc
    rw [visitCodings, hd]
    simp only []
    rw [ih _ (fun t ht => hall t (List.mem_cons_of_mem _ ht))]
    simp [List.filterMap_cons, hd]

theorem visitCodings_ignore :
    ∀ (l : List JsString) (ds : List ZlibStream),
      visitCodings true l ds = .ok (ds ++ l.filterMap codingTable) := by
  intro l
  induction l with
  | nil => intro ds; simp [visitCodings]
  | cons c cs ih =>
    intro ds
    rw [visitCodings]
    cases hd : codingTable c with
    | some d => simp only []; rw [ih]; simp [List.filterMap_cons, hd]
    | none => simp only [if_true]; rw [ih]; simp [List.filterMap_cons, hd]

theorem visitCodings_unknown :
    ∀ (a : List JsString) (tok : JsString) (b : List JsString) (ds : List ZlibStream),
      (∀ t ∈ a, codingTable t ≠ none) → codingTable tok = none →
      visitCodings false (a ++ tok :: b) ds =
        .error (.Error (str "Invalid coding: " ++ tok)) := by
  intro a
  induction a with
  | nil => intro tok b ds _ htok; simp [visitCodings, htok]
  | cons c cs ih =>
    intro tok b ds hall htok
    have hc : codingTable c ≠ none := hall c (List.mem_cons_self _ _)
    obtain ⟨d, hd⟩ := Option.ne_none_iff_exists'.mp hc
    rw [List.cons_append, visitCodings, hd]
    simp only []
    exact ih tok b _ (fun t ht => hall t (List.mem_cons_of_mem _ ht)) htok

theorem selectDecoders_of_value (ign : Bool) :
    ∀ (headers : List Buffer) (value : Buffer), contentEncodingValue headers = some value →
      selectDecoders ign headers =
        visitCodings ign (codingTokens value).reverse [] := by
  intro headers
  induction headers using contentEncodingValue.induct with
  | case1 name value rest hname =>
    intro v hv
    simp only [contentEncodingValue, hname, if_true, Option.some.injEq] at hv
    subst hv
    simp only [selectDecoders, hname, if_true]
    rw [codingLoop_eq_visit _ _ _ _ (Nat.le_refl _), List.take_length]
    rfl
  | case2 name value rest hname ih =>
    intro v hv
    simp only [contentEncodingValue, hname] at hv
    simp only [selectDecoders, hname]
    exact ih v (by simpa using hv)
  | case3 l hl =>
    intro v hv
    exfalso
    cases l with
    | nil => simp [contentEncodingValue] at hv
    | cons a t =>
      cases t with
      | nil => simp [contentEncodingValue] at hv
      | cons b t2 => exact hl a b t2 rfl

theorem splitLoop_zero (cur s : JsString) : splitLoop 0 cur s = [cur] := rfl

theorem splitLoop_nil (fuel : Nat) (cur : JsString) : splitLoop fuel cur [] = [cur] := by
  cases fuel <;> rfl

theorem splitLoop_cons (fuel : Nat) (cur : JsString) (c : Nat) (t : JsString) :
    splitLoop (fuel + 1) cur (c :: t) =
      match matchSeparator (c :: t) with
      | some rest => cur :: splitLoop fuel [] rest
      | none => splitLoop fuel (cur ++ [c]) t := rfl

theorem splitLoop_ne_nil : ∀ (fuel : Nat) (cur s : JsString), splitLoop fuel cur s ≠ [] := by
  intro fuel
  induction fuel with
  | zero => intro cur s; rw [splitLoop_zero]; simp
  | succ n ih =>
    intro cur s
    cases s with
    | nil => rw [splitLoop_nil]; simp
    | cons c t =>
      rw [splitLoop_cons]
      split
      · simp
      · exact ih _ _

theorem codingTokens_ne_nil (value : Buffer) : codingTokens value ≠ [] :=
  splitLoop_ne_nil _ _ _

theorem filterMap_map_some {α β : Type} (f : α → Option β) :
    ∀ (l : List α), (∀ t ∈ l, f t ≠ none) → (l.filterMap f).map some = l.map f := by
  intro l
  induction l with
  | nil => intro _; rfl
  | cons c cs ih =>
    intro hall
    obtain ⟨d, hd⟩ := Option.ne_none_iff_exists'.mp (hall c (List.mem_cons_self _ _))
    simp [List.filterMap_cons, hd, ih (fun t ht => hall t (List.mem_cons_of_mem _ ht))]

theorem onHeaders_ok (h : Handler) (statusCode : Nat) (headers : List Buffer)
    (resume : ResumeFn) (statusText : JsString) (downRet : JsValue) (ds : List ZlibStream)
    (hsel : selectDecoders h.ignoreUnknown headers = .ok ds) :
    onHeaders h statusCode headers resume statusText downRet =
      ⟨buildPipeline h resume ds, superOnHeaders statusCode headers (.wrapper resume) statusText,
        .ok downRet⟩ := by
  simp only [onHeaders, hsel]

theorem onHeaders_error (h : Handler) (statusCode : Nat) (headers : List Buffer)
    (resume : ResumeFn) (statusText : JsString) (downRet : JsValue) (e : JsError)
    (hsel : selectDecoders h.ignoreUnknown headers = .error e) :
    onHeaders h statusCode headers resume statusText downRet = ⟨h, [], .error e⟩ := by
  simp only [onHeaders, hsel]

theorem onHeaders_stages (h : Handler) (statusCode : Nat) (headers : List Buffer)
    (resume : ResumeFn) (statusText : JsString) (downRet : JsValue) (ds : List ZlibStream)
    (hsel : selectDecoders h.ignoreUnknown headers = .ok ds) (hne : ds ≠ []) :
    (onHeaders h statusCode headers resume statusText downRet).state.stages = ds := by
  rw [onHeaders_ok h statusCode headers resume statusText downRet ds hsel]
  cases ds with
  | nil => exact absurd rfl hne
  | cons d rest => rfl

theorem unrecognized_iff (t : JsString) : unrecognized t ↔ codingTable t = none := by
  unfold unrecognized codingTable
  constructor
  · rintro ⟨h1, h2, h3, h4⟩
    simp [h1, h2, h3, h4]
  · intro h
    split_ifs at h with h1 h2 h3 h4
    exact ⟨h1, h2, h3, h4⟩

theorem exists_rightmost {α : Type} (P : α → Prop) :
    ∀ (l : List α), (∃ t ∈ l, P t) →
      ∃ pre tok post, l = pre ++ tok :: post ∧ P tok ∧ ∀ t ∈ post, ¬ P t := by
  intro l
  induction l with
  | nil => rintro ⟨t, ht, _⟩; cases ht
  | cons c cs ih =>
    intro hex
    by_cases hcs : ∃ t ∈ cs, P t
    · obtain ⟨pre, tok, post, hl, htok, hpost⟩ := ih hcs
      exact ⟨c :: pre, tok, post, by rw [hl]; rfl, htok, hpost⟩
    · obtain ⟨t, ht, hP⟩ := hex
      rcases List.mem_cons.mp ht with rfl | hmem
      · exact ⟨[], t, cs, rfl, hP, fun u hu hPu => hcs ⟨u, hu, hPu⟩⟩
      · exact absurd ⟨t, hmem, hP⟩ hcs

theorem feed_applyCodings (encode decode : ZlibKind → Buffer → Buffer)
    (hround : ∀ k x, decode k (encode k x) = x) :
    ∀ (tokens : List JsString), (∀ t ∈ tokens, codingTable t ≠ none) → ∀ (x : Buffer),
      feed decode (tokens.reverse.filterMap codingTable) (applyCodings encode tokens x) = x := by
  intro tokens
  induction tokens using List.reverseRecOn with
  | nil => intro _ x; rfl
  | append_singleton l a ih =>
    intro hall x
    obtain ⟨d, hd⟩ := Option.ne_none_iff_exists'.mp (hall a (by simp))
    have hl : ∀ t ∈ l, codingTable t ≠ none := fun t ht => hall t (by simp [ht])
    have h1 : applyCodings encode (l ++ [a]) x = encode d.kind (applyCodings encode l x) := by
      simp [applyCodings, List.foldl_append, hd]
    have h2 : (l ++ [a]).reverse.filterMap codingTable
        = d :: l.reverse.filterMap codingTable := by
      simp [List.filterMap_cons, hd]
    rw [h1, h2]
    show feed decode (l.reverse.filterMap codingTable)
      (decode d.kind (encode d.kind (applyCodings encode l x))) = x
    rw [hround]
    exact ih hl x

theorem selectDecoders_recognized (ign : Bool) (headers : List Buffer) (value : Buffer)
    (hvalue : contentEncodingValue headers = some value)
    (hall : ∀ t ∈ codingTokens value, codingTable t ≠ none) :
    selectDecoders ign headers = .ok ((codingTokens value).reverse.filterMap codingTable) := by
  rw [selectDecoders_of_value _ _ _ hvalue,
    visitCodings_recognized _ _ _ (fun t ht => hall t (List.mem_reverse.mp ht))]
  simp

theorem recognized_filterMap_ne_nil (value : Buffer)
    (hall : ∀ t ∈ codingTokens value, codingTable t ≠ none) :
    (codingTokens value).reverse.filterMap codingTable ≠ [] := by
  intro h0
  have hmap := filterMap_map_some codingTable (codingTokens value).reverse
    (fun t ht => hall t (List.mem_reverse.mp ht))
  rw [h0] at hmap
  have hlen := congrArg List.length hmap
  simp at hlen
  exact codingTokens_ne_nil value (List.length_eq_zero.mp hlen.symm)

theorem trace_passthrough (h : Handler) (hd : h.decoder = none) :
    ∀ (calls : List (Buffer × Bool × JsValue)),
      trace h (onDataCalls calls)
          = calls.map (fun c => ⟨h, [.downstreamOnData c.1], .ok c.2.2⟩) ∧
        run h (onDataCalls calls) = h := by
  intro calls
  induction calls with
  | nil => exact ⟨rfl, rfl⟩
  | cons c cs ih =>
    have hstep : step h (.onData c.1 c.2.1 c.2.2) = ⟨h, [.downstreamOnData c.1], .ok c.2.2⟩ := by
      simp [step, onData, hd, superOnData]
    constructor
    · simp only [onDataCalls, List.map_cons, trace, hstep]
      exact congrArg _ ih.1
    · simp only [onDataCalls, List.map_cons, run, hstep]
      exact ih.2

theorem deliveries_append (a b : List Effect) :
    deliveries (a ++ b) = deliveries a ++ deliveries b := by
  induction a with
  | nil => rfl
  | cons e a ih => cases e <;> simp [deliveries, ih]

theorem effectsOf_cons (h : Handler) (e : Event) (es : List Event) :
    effectsOf h (e :: es) = (step h e).effects ++ effectsOf (step h e).state es := by
  simp [effectsOf, trace]

theorem effectsOf_passthrough (h : Handler) (hd : h.decoder = none)
    (calls : List (Buffer × Bool × JsValue)) :
    effectsOf h (onDataCalls calls) = calls.map (fun c => .downstreamOnData c.1) := by
  rw [effectsOf, (trace_passthrough h hd calls).1]
  induction calls with
  | nil => rfl
  | cons c cs ih => simpa [List.flatMap_cons] using ih

theorem selectDecoders_no_entry (ign : Bool) :
    ∀ (headers : List Buffer), hasContentEncoding headers = false →
      selectDecoders ign headers = .ok [] := by
  intro headers
  induction headers using hasContentEncoding.induct with
  | case1 => intro _; rfl
  | case2 name =>
    intro hno
    simp only [hasContentEncoding] at hno
    simp [selectDecoders, hno]
  | case3 name value rest ih =>
    intro hno
    simp only [hasContentEncoding, Bool.or_eq_false_iff] at hno
    simp only [selectDecoders, hno.1]
    exact ih hno.2

/-! ## Splitting -/

theorem matchSeparator_length (s rest : JsString) (hm : matchSeparator s = some rest) :
    rest.length < s.length := by
  unfold matchSeparator at hm
  have hle := (List.dropWhile_sublist isWhiteSpace (l := s)).length_le
  cases hdw : s.dropWhile isWhiteSpace with
  | nil => rw [hdw] at hm; simp at hm
  | cons c r =>
    rw [hdw] at hm hle
    simp only at hm
    split_ifs at hm
    have hr := (List.dropWhile_sublist isWhiteSpace (l := r)).length_le
    simp only [Option.some.injEq] at hm
    rw [← hm]
    simp only [List.length_cons] at hle
    omega

theorem splitLoop_fuel :
    ∀ (f1 f2 : Nat) (cur s : JsString), s.length < f1 → s.length < f2 →
      splitLoop f1 cur s = splitLoop f2 cur s := by
  intro f1
  induction f1 with
  | zero => intro f2 cur s h1 _; omega
  | succ n ih =>
    intro f2 cur s h1 h2
    cases f2 with
    | zero => omega
    | succ m =>
      cases s with
      | nil => rw [splitLoop_nil, splitLoop_nil]
      | cons c t =>
        rw [splitLoop_cons, splitLoop_cons]
        simp only [List.length_cons] at h1 h2
        cases hm : matchSeparator (c :: t) with
        | none => exact ih m _ t (by omega) (by omega)
        | some rest =>
          have hlt := matchSeparator_length _ _ hm
          simp only [List.length_cons] at hlt
          simp only []
          rw [ih m [] rest (by omega) (by omega)]

theorem split_samples :
    split (str "deflate, gzip") = [str "deflate", str "gzip"] ∧
    split (str " gzip ,\t br ") = [str " gzip", str "br "] ∧
    split (str "") = [str ""] ∧
    split (str "gzip,") = [str "gzip", str ""] ∧
    split (str " , ,") = [str "", str "", str ""] ∧
    split (str "a b , c") = [str "a b", str "c"] := by
  decide

theorem split_eq_splitFrom (s : JsString) : split s = splitFrom [] s := rfl

theorem splitFrom_nil (cur : JsString) : splitFrom cur [] = [cur] := rfl

theorem splitFrom_cons_none (cur : JsString) (c : Nat) (t : JsString)
    (hm : matchSeparator (c :: t) = none) :
    splitFrom cur (c :: t) = splitFrom (cur ++ [c]) t := by
  unfold splitFrom
  rw [List.length_cons, splitLoop_cons, hm]

theorem splitFrom_cons_some (cur : JsString) (c : Nat) (t rest : JsString)
    (hm : matchSeparator (c :: t) = some rest) :
    splitFrom cur (c :: t) = cur :: splitFrom [] rest := by
  unfold splitFrom
  rw [List.length_cons, splitLoop_cons, hm]
  have hlt := matchSeparator_length _ _ hm
  simp only [List.length_cons] at hlt
  simp only []
  rw [splitLoop_fuel (t.length + 1) (rest.length + 1) [] rest (by omega) (by omega)]

theorem splitFrom_token :
    ∀ (tok : JsString), (∀ c ∈ tok, isWhiteSpace c = false ∧ c ≠ comma) →
      ∀ (cur s : JsString), splitFrom cur (tok ++ s) = splitFrom (cur ++ tok) s := by
  intro tok
  induction tok with
  | nil => intro _ cur s; simp
  | cons c tok ih =>
    intro hall cur s
    have hc := hall c (List.mem_cons_self _ _)
    have hm : matchSeparator (c :: (tok ++ s)) = none := by
      unfold matchSeparator
      rw [List.dropWhile_cons_of_neg (by simp [hc.1])]
      simp [hc.2]
    rw [List.cons_append, splitFrom_cons_none _ _ _ hm,
      ih (fun d hd => hall d (List.mem_cons_of_mem _ hd))]
    simp

theorem matchSeparator_separator (w1 w2 rest : JsString)
    (h1 : ∀ c ∈ w1, isWhiteSpace c = true) (h2 : ∀ c ∈ w2, isWhiteSpace c = true)
    (hrest : rest.dropWhile isWhiteSpace = rest) :
    matchSeparator (w1 ++ comma :: (w2 ++ rest)) = some rest := by
  unfold matchSeparator
  rw [List.dropWhile_append_of_pos h1,
    List.dropWhile_cons_of_neg (by decide : ¬ isWhiteSpace comma = true)]
  simp only [if_true]
  rw [List.dropWhile_append_of_pos h2, hrest]

theorem splitFrom_separator (cur w1 w2 rest : JsString)
    (h1 : ∀ c ∈ w1, isWhiteSpace c = true) (h2 : ∀ c ∈ w2, isWhiteSpace c = true)
    (hrest : rest.dropWhile isWhiteSpace = rest) :
    splitFrom cur (w1 ++ comma :: (w2 ++ rest)) = cur :: splitFrom [] rest := by
  have hm := matchSeparator_separator w1 w2 rest h1 h2 hrest
  cases w1 with
  | nil => exact splitFrom_cons_some _ _ _ _ hm
  | cons c w => exact splitFrom_cons_some _ _ _ _ hm

theorem lowerUnit_whiteSpace (c : Nat) (hc : isWhiteSpace c = true) : lowerUnit c = c := by
  unfold lowerUnit
  unfold isWhiteSpace at hc
  simp only [Bool.or_eq_true, Bool.and_eq_true, decide_eq_true_eq, beq_iff_eq] at hc
  split_ifs <;> omega

theorem lowerUnit_lt (c : Nat) (hc : c < 256) : lowerUnit c < 256 := by
  unfold lowerUnit
  split_ifs <;> omega

theorem latin1_map_lowerByte (b : Buffer) : latin1 (b.map lowerByte) = lowered b := by
  unfold latin1 lowered toLowerCase latin1
  rw [List.map_map, List.map_map]
  apply List.map_congr_left
  intro x _
  simp only [Function.comp, lowerByte, Fin.ofNat]
  exact Nat.mod_eq_of_lt (lowerUnit_lt _ x.isLt)

theorem recognized_units (t : JsString) (ht : codingTable t ≠ none) :
    t ≠ [] ∧ (∀ c ∈ t, isWhiteSpace c = false ∧ c ≠ comma) ∧ toLowerCase t = t := by
  have hcases : t = str "gzip" ∨ t = str "x-gzip" ∨ t = str "deflate" ∨ t = str "br" := by
    by_contra hcon
    push_neg at hcon
    exact ht ((unrecognized_iff t).mp hcon)
  rcases hcases with rfl | rfl | rfl | rfl <;> decide

theorem lowered_append (a b : Buffer) : lowered (a ++ b) = lowered a ++ lowered b := by
  simp [lowered, toLowerCase, latin1]

theorem lowered_whiteSpace (w : Buffer) (hws : whiteSpaceOnly w = true) :
    ∀ c ∈ lowered w, isWhiteSpace c = true := by
  have hw : ∀ b ∈ w, isWhiteSpace b.val = true := by
    simpa [whiteSpaceOnly, List.all_eq_true] using hws
  intro c hc
  simp only [lowered, toLowerCase, latin1, List.map_map, List.mem_map, Function.comp] at hc
  obtain ⟨b, hb, rfl⟩ := hc
  rw [lowerUnit_whiteSpace _ (hw b hb)]
  exact hw b hb

theorem lowered_renderValue_head (t : Buffer) (more : List (Buffer × Buffer × Buffer))
    (ht : codingTable (lowered t) ≠ none) :
    (lowered (renderValue t more)).dropWhile isWhiteSpace = lowered (renderValue t more) := by
  obtain ⟨hne, hunits, _⟩ := recognized_units _ ht
  have hshape : ∃ tail, lowered (renderValue t more) = lowered t ++ tail := by
    cases more with
    | nil => exact ⟨[], by simp [renderValue]⟩
    | cons i more =>
      obtain ⟨w1, w2, u⟩ := i
      refine ⟨lowered w1 ++ (lowered [44] ++ (lowered w2 ++ lowered (renderValue u more))), ?_⟩
      simp only [renderValue, List.append_assoc, lowered_append]
  obtain ⟨tail, htail⟩ := hshape
  rw [htail]
  cases hlt : lowered t with
  | nil => exact absurd hlt hne
  | cons c cs =>
    have hc := hunits c (by rw [hlt]; exact List.mem_cons_self _ _)
    rw [List.cons_append, List.dropWhile_cons_of_neg (by simp [hc.1])]

theorem codingTokens_renderValue :
    ∀ (items : List (Buffer × Buffer × Buffer)) (t0 : Buffer),
      codingTable (lowered t0) ≠ none →
      (∀ i ∈ items, whiteSpaceOnly i.1 = true ∧ whiteSpaceOnly i.2.1 = true ∧
        codingTable (lowered i.2.2) ≠ none) →
      codingTokens (renderValue t0 items) = lowered t0 :: items.map (fun i => lowered i.2.2) := by
  intro items
  induction items with
  | nil =>
    intro t0 ht0 _
    obtain ⟨_, hunits, _⟩ := recognized_units _ ht0
    show splitFrom [] (lowered t0) = _
    have := splitFrom_token (lowered t0) hunits [] []
    simp only [List.append_nil, List.nil_append] at this
    rw [this, splitFrom_nil]
    rfl
  | cons i more ih =>
    intro t0 ht0 hitems
    obtain ⟨w1, w2, t⟩ := i
    obtain ⟨hw1, hw2, ht⟩ := hitems (w1, w2, t) (List.mem_cons_self _ _)
    obtain ⟨_, hunits, _⟩ := recognized_units _ ht0
    have hmore := ih t ht (fun j hj => hitems j (List.mem_cons_of_mem _ hj))
    show splitFrom [] (lowered (renderValue t0 ((w1, w2, t) :: more))) = _
    have hshape : lowered (renderValue t0 ((w1, w2, t) :: more))
        = lowered t0 ++ (lowered w1 ++ comma :: (lowered w2 ++ lowered (renderValue t more))) := by
      simp only [renderValue, List.append_assoc, lowered_append]
      rfl
    rw [hshape, splitFrom_token _ hunits, List.nil_append,
      splitFrom_separator _ _ _ _ (lowered_whiteSpace _ hw1) (lowered_whiteSpace _ hw2)
        (lowered_renderValue_head t more ht)]
    have : splitFrom [] (lowered (renderValue t more)) = codingTokens (renderValue t more) := rfl
    rw [this, hmore]
    rfl

theorem codingTokens_plainValue (t0 : Buffer) (items : List (Buffer × Buffer × Buffer))
    (ht0 : codingTable (lowered t0) ≠ none)
    (hitems : ∀ i ∈ items, codingTable (lowered i.2.2) ≠ none) :
    codingTokens (plainValue t0 items) = lowered t0 :: items.map (fun i => lowered i.2.2) := by
  have hlow : ∀ t : Buffer, codingTable (lowered t) ≠ none →
      lowered (t.map lowerByte) = lowered t := by
    intro t ht
    have h1 : lowered (t.map lowerByte) = toLowerCase (latin1 (t.map lowerByte)) := rfl
    rw [h1, latin1_map_lowerByte]
    exact (recognized_units _ ht).2.2
  unfold plainValue
  rw [codingTokens_renderValue]
  · rw [hlow t0 ht0, List.map_map]
    congr 1
    apply List.map_congr_left
    intro i hi
    exact hlow _ (hitems i hi)
  · rw [hlow t0 ht0]; exact ht0
  · intro j hj
    obtain ⟨i, hi, rfl⟩ := List.mem_map.mp hj
    refine ⟨rfl, rfl, ?_⟩
    show codingTable (lowered (i.2.2.map lowerByte)) ≠ none
    rw [hlow _ (hitems i hi)]
    exact hitems i hi

/-! ## Runs with a pipeline -/

theorem buildPipeline_isSome (h : Handler) (resume : ResumeFn) (ds : List ZlibStream)
    (hp : h.decoder.isSome = true) : (buildPipeline h resume ds).decoder.isSome = true := by
  cases ds with
  | nil => exact hp
  | cons d rest => rfl

theorem buildPipeline_trailers (h : Handler) (resume : ResumeFn) (ds : List ZlibStream) :
    (buildPipeline h resume ds).trailers = h.trailers := by
  cases ds <;> rfl

theorem step_isSome (h : Handler) (e : Event) (hp : h.decoder.isSome = true) :
    (step h e).state.decoder.isSome = true := by
  obtain ⟨p, hdec⟩ := Option.isSome_iff_exists.mp hp
  cases e with
  | onHeaders statusCode headers resume statusText downRet =>
    simp only [step, onHeaders]
    cases selectDecoders h.ignoreUnknown headers with
    | error e => exact hp
    | ok ds => exact buildPipeline_isSome h resume ds hp
  | onData chunk writeRet downRet => simp [step, onData, hdec]
  | onComplete trailers => simp [step, onComplete, hdec]
  | drain => simp [step, onDrain, hdec]
  | data chunk downRet => simp [step, onDestinationData, hdec]
  | tailEnd => simp [step, onDestinationEnd, hdec]
  | error err => simp [step, onDestinationError, onError, hdec]
  | pipelineCallback err =>
    simp only [step, onPipelineCallback, hdec]
    split <;> simp [onError, hdec]
  | resumeHook resume => simp [step, resumeHook, hdec]

theorem step_trailers (h : Handler) (e : Event) (hno : ∀ t, e ≠ .onComplete t) :
    (step h e).state.trailers = h.trailers := by
  cases e with
  | onHeaders statusCode headers resume statusText downRet =>
    simp only [step, onHeaders]
    cases selectDecoders h.ignoreUnknown headers with
    | error e => rfl
    | ok ds => exact buildPipeline_trailers h resume ds
  | onData chunk writeRet downRet => simp only [step, onData]; split <;> rfl
  | onComplete trailers => exact absurd rfl (hno trailers)
  | drain => simp only [step, onDrain]; split <;> rfl
  | data chunk downRet => simp only [step, onDestinationData]; split <;> rfl
  | tailEnd => simp only [step, onDestinationEnd]; split <;> rfl
  | error err => simp only [step, onDestinationError, onError]; split <;> rfl
  | pipelineCallback err =>
    simp only [step, onPipelineCallback, onError]
    split
    · split <;> rfl
    · rfl
  | resumeHook resume => rfl

theorem step_deliveries (h : Handler) (e : Event) (hp : h.decoder.isSome = true) :
    deliveries (step h e).effects = emitted [e] := by
  obtain ⟨p, hdec⟩ := Option.isSome_iff_exists.mp hp
  cases e with
  | onHeaders statusCode headers resume statusText downRet =>
    simp only [step, onHeaders]
    cases selectDecoders h.ignoreUnknown headers <;> rfl
  | onData chunk writeRet downRet => simp [step, onData, hdec, deliveries, emitted]
  | onComplete trailers => simp [step, onComplete, hdec, deliveries, emitted]
  | drain =>
    simp only [step, onDrain, hdec]
    cases h.paused <;> rfl
  | data chunk downRet =>
    simp [step, onDestinationData, hdec, superOnData, deliveries, emitted]
  | tailEnd => simp [step, onDestinationEnd, hdec, superOnComplete, deliveries, emitted]
  | error err => simp [step, onDestinationError, onError, hdec, deliveries, emitted]
  | pipelineCallback err =>
    simp only [step, onPipelineCallback, hdec]
    split <;> rfl
  | resumeHook resume => rfl

theorem emitted_cons (e : Event) (es : List Event) :
    emitted (e :: es) = emitted [e] ++ emitted es := by
  cases e <;> rfl

theorem deliveries_effectsOf :
    ∀ (es : List Event) (h : Handler), h.decoder.isSome = true →
      deliveries (effectsOf h es) = emitted es := by
  intro es
  induction es with
  | nil => intro h _; rfl
  | cons e es ih =>
    intro h hp
    rw [effectsOf_cons, deliveries_append, step_deliveries h e hp,
      ih _ (step_isSome h e hp), ← emitted_cons]

theorem run_invariant :
    ∀ (es : List Event) (h : Handler), h.decoder.isSome = true →
      (run h es).decoder.isSome = true ∧
        ((∀ t, Event.onComplete t ∉ es) → (run h es).trailers = h.trailers) := by
  intro es
  induction es with
  | nil => intro h hp; exact ⟨hp, fun _ => rfl⟩
  | cons e es ih =>
    intro h hp
    obtain ⟨h1, h2⟩ := ih _ (step_isSome h e hp)
    refine ⟨h1, fun hno => ?_⟩
    show (run (step h e).state es).trailers = h.trailers
    rw [h2 (fun t ht => hno t (List.mem_cons_of_mem _ ht)),
      step_trailers h e (fun t ht => hno t (by rw [ht]; exact List.mem_cons_self _ _))]

theorem step_complete_mem (g : Handler) (e : Event) (x : Trailers)
    (hp : g.decoder.isSome = true)
    (hx : Effect.downstreamOnComplete x ∈ (step g e).effects) :
    e = .tailEnd ∧ x = g.trailers := by
  obtain ⟨r, hr⟩ := Option.isSome_iff_exists.mp hp
  cases e with
  | onHeaders statusCode headers resume statusText downRet =>
    simp only [step, onHeaders] at hx
    cases hsel : selectDecoders g.ignoreUnknown headers
      <;> rw [hsel] at hx <;> simp [superOnHeaders] at hx
  | onData chunk writeRet downRet => simp [step, onData, hr] at hx
  | onComplete t => simp [step, onComplete, hr] at hx
  | drain =>
    simp only [step, onDrain, hr] at hx
    cases hpa : g.paused <;> rw [hpa] at hx <;> simp at hx
  | data chunk downRet => simp [step, onDestinationData, hr, superOnData] at hx
  | tailEnd =>
    simp only [step, onDestinationEnd, hr, superOnComplete, List.mem_singleton,
      Effect.downstreamOnComplete.injEq] at hx
    exact ⟨rfl, hx⟩
  | error err => simp [step, onDestinationError, onError, hr] at hx
  | pipelineCallback err =>
    simp only [step, onPipelineCallback, hr] at hx
    split at hx <;> simp [onError] at hx
  | resumeHook resume => simp [step, resumeHook] at hx

theorem complete_mem_effectsOf (x : Trailers) :
    ∀ (es : List Event) (g : Handler), g.decoder.isSome = true →
      Effect.downstreamOnComplete x ∈ effectsOf g es → Event.tailEnd ∈ es := by
  intro es
  induction es with
  | nil => intro g _ hx; simp [effectsOf, trace] at hx
  | cons e es ih =>
    intro g hp hx
    rw [effectsOf_cons, List.mem_append] at hx
    rcases hx with hx | hx
    · rw [(step_complete_mem g e x hp hx).1]
      exact List.mem_cons_self _ _
    · exact List.mem_cons_of_mem _ (ih _ (step_isSome g e hp) hx)

/-! ## The paused flag, repeated entries, empty tokens -/

theorem step_paused_invariant (h : Handler) (e : Event) (flag : Bool)
    (h1 : h.paused = true → flag = true) (h2 : h.decoder = none → h.paused = false) :
    ((step h e).state.paused = true →
      (match e with
        | .resumeHook _ => false
        | _ =>
          if delivers (step h e) then decide (downstreamAnswer e = some (.boolean false))
          else flag) = true) ∧
    ((step h e).state.decoder = none → (step h e).state.paused = false) := by
  cases e with
  | onHeaders statusCode headers resume statusText downRet =>
    simp only [step]
    cases hsel : selectDecoders h.ignoreUnknown headers with
    | error e =>
      simp only [onHeaders_error h statusCode headers resume statusText downRet e hsel]
      exact ⟨by simpa [delivers, deliveries] using h1, h2⟩
    | ok ds =>
      simp only [onHeaders_ok h statusCode headers resume statusText downRet ds hsel]
      cases ds with
      | nil => exact ⟨by simpa [delivers, deliveries, superOnHeaders, buildPipeline] using h1, h2⟩
      | cons d rest =>
        refine ⟨by simpa [delivers, deliveries, superOnHeaders, buildPipeline] using h1, ?_⟩
        intro hnone
        simp [buildPipeline] at hnone
  | onData chunk writeRet downRet =>
    cases hd : h.decoder with
    | none =>
      have hpa := h2 hd
      simp [step, onData, hd, hpa]
    | some p =>
      simp only [step, onData, hd]
      exact ⟨by simpa [delivers, deliveries] using h1, by simp [hd]⟩
  | onComplete trailers =>
    cases hd : h.decoder with
    | none =>
      have hpa := h2 hd
      simp [step, onComplete, hd, hpa]
    | some p =>
      simp only [step, onComplete, hd]
      exact ⟨by simpa [delivers, deliveries] using h1, by simp [hd]⟩
  | drain =>
    cases hd : h.decoder with
    | none =>
      have hpa := h2 hd
      simp [step, onDrain, hd, hpa]
    | some p =>
      simp only [step, onDrain, hd]
      refine ⟨?_, by simp [hd]⟩
      cases hpa : h.paused
      · simp
      · simpa [delivers, deliveries, hpa] using h1 hpa
  | data chunk downRet =>
    cases hd : h.decoder with
    | none =>
      have hpa := h2 hd
      simp [step, onDestinationData, hd, hpa]
    | some p =>
      simp [step, onDestinationData, hd, superOnData, delivers, deliveries, downstreamAnswer]
  | tailEnd =>
    cases hd : h.decoder with
    | none =>
      have hpa := h2 hd
      simp [step, onDestinationEnd, hd, hpa]
    | some p =>
      simp only [step, onDestinationEnd, hd]
      exact ⟨by simpa [delivers, deliveries, superOnComplete] using h1, by simp [hd]⟩
  | error err =>
    cases hd : h.decoder with
    | none =>
      have hpa := h2 hd
      simp [step, onDestinationError, hd, hpa]
    | some p =>
      simp only [step, onDestinationError, onError, hd]
      exact ⟨by simpa [delivers, deliveries] using h1, by simp [hd]⟩
  | pipelineCallback err =>
    cases hd : h.decoder with
    | none =>
      have hpa := h2 hd
      simp [step, onPipelineCallback, hd, hpa]
    | some p =>
      simp only [step, onPipelineCallback, hd]
      split
      · exact ⟨by simpa [onError, delivers, deliveries] using h1, by simp [onError, hd]⟩
      · exact ⟨by simpa [delivers, deliveries] using h1, by simp [hd]⟩
  | resumeHook resume =>
    simp [step, resumeHook]

theorem run_paused_invariant :
    ∀ (es : List Event) (h : Handler) (flag : Bool),
      (h.paused = true → flag = true) → (h.decoder = none → h.paused = false) →
      ((run h es).paused = true → lastDeliveryRefused h flag es = true) ∧
        ((run h es).decoder = none → (run h es).paused = false) := by
  intro es
  induction es with
  | nil => intro h flag h1 h2; exact ⟨h1, h2⟩
  | cons e es ih =>
    intro h flag h1 h2
    obtain ⟨s1, s2⟩ := step_paused_invariant h e flag h1 h2
    exact ih (step h e).state _ s1 s2

theorem visitCodings_strict_ok :
    ∀ (l : List JsString) (ds r : List ZlibStream), visitCodings false l ds = .ok r →
      (∀ t ∈ l, codingTable t ≠ none) ∧ r = ds ++ l.filterMap codingTable := by
  intro l
  induction l with
  | nil =>
    intro ds r hr
    simp only [visitCodings, Except.ok.injEq] at hr
    exact ⟨fun t ht => absurd ht (List.not_mem_nil t), by simp [hr]⟩
  | cons c cs ih =>
    intro ds r hr
    rw [visitCodings] at hr
    cases hd : codingTable c with
    | none => rw [hd] at hr; simp at hr
    | some d =>
      rw [hd] at hr
      obtain ⟨hall, hres⟩ := ih _ _ hr
      refine ⟨?_, ?_⟩
      · intro t ht
        rcases List.mem_cons.mp ht with rfl | hmem
        · rw [hd]; simp
        · exact hall t hmem
      · rw [hres]
        simp [List.filterMap_cons, hd]

theorem contentEncodingValue_drop :
    ∀ (headers : List Buffer), contentEncodingValue (dropContentEncoding headers) = none := by
  intro headers
  induction headers using dropContentEncoding.induct with
  | case1 name value rest hname ih => simpa [dropContentEncoding, hname] using ih
  | case2 name value rest hname ih =>
    simpa [dropContentEncoding, hname, contentEncodingValue] using ih
  | case3 l hl =>
    cases l with
    | nil => rfl
    | cons a t =>
      cases t with
      | nil => rfl
      | cons b t2 => exact absurd rfl (hl a b t2)

theorem selectDecoders_keepFirst (ign : Bool) :
    ∀ (headers : List Buffer),
      selectDecoders ign (keepFirstContentEncoding headers) = selectDecoders ign headers := by
  intro headers
  induction headers using keepFirstContentEncoding.induct with
  | case1 name value rest hname =>
    simp [keepFirstContentEncoding, selectDecoders, hname]
  | case2 name value rest hname ih =>
    simpa [keepFirstContentEncoding, selectDecoders, hname] using ih
  | case3 l hl =>
    cases l with
    | nil => rfl
    | cons a t =>
      cases t with
      | nil => rfl
      | cons b t2 => exact absurd rfl (hl a b t2)

theorem dropWhile_append_comma :
    ∀ (x : JsString), (x ++ [comma]).dropWhile isWhiteSpace
      = x.dropWhile isWhiteSpace ++ [comma] := by
  intro x
  induction x with
  | nil => rfl
  | cons c t ih =>
    cases hc : isWhiteSpace c with
    | true =>
      rw [List.cons_append, List.dropWhile_cons_of_pos hc, List.dropWhile_cons_of_pos hc, ih]
    | false =>
      rw [List.cons_append, List.dropWhile_cons_of_neg (by simp [hc]),
        List.dropWhile_cons_of_neg (by simp [hc])]
      rfl

theorem splitFrom_comma_end :
    ∀ (n : Nat) (s cur : JsString), s.length ≤ n →
      ∃ l, splitFrom cur (s ++ [comma]) = l ++ [[]] := by
  intro n
  induction n with
  | zero =>
    intro s cur hs
    have : s = [] := List.length_eq_zero.mp (Nat.le_zero.mp hs)
    subst this
    exact ⟨[cur], by rw [List.nil_append, splitFrom_cons_some cur comma [] [] rfl]; rfl⟩
  | succ n ih =>
    intro s cur hs
    cases s with
    | nil => exact ⟨[cur], by rw [List.nil_append, splitFrom_cons_some cur comma [] [] rfl]; rfl⟩
    | cons c t =>
      simp only [List.length_cons] at hs
      rw [List.cons_append]
      cases hm : matchSeparator (c :: (t ++ [comma])) with
      | none =>
        rw [splitFrom_cons_none _ _ _ hm]
        exact ih t _ (by omega)
      | some rest =>
        rw [splitFrom_cons_some _ _ _ _ hm]
        have hshape : rest = [] ∨ ∃ r, rest = r ++ [comma] ∧ r.length ≤ n := by
          unfold matchSeparator at hm
          rw [← List.cons_append, dropWhile_append_comma] at hm
          have hle := (List.dropWhile_sublist isWhiteSpace (l := c :: t)).length_le
          cases hx : (c :: t).dropWhile isWhiteSpace with
          | nil =>
            rw [hx] at hm
            simp only [List.nil_append, if_true, List.dropWhile_nil, Option.some.injEq] at hm
            exact Or.inl hm.symm
          | cons d u =>
            rw [hx] at hm hle
            simp only [List.cons_append] at hm
            split_ifs at hm
            simp only [Option.some.injEq] at hm
            rw [dropWhile_append_comma] at hm
            have hu := (List.dropWhile_sublist isWhiteSpace (l := u)).length_le
            simp only [List.length_cons] at hle
            exact Or.inr ⟨_, hm.symm, by omega⟩
        rcases hshape with rfl | ⟨r, rfl, hr⟩
        · exact ⟨[cur], rfl⟩
        · obtain ⟨l, hl⟩ := ih r [] hr
          exact ⟨cur :: l, by rw [hl]; rfl⟩

theorem codingTokens_comma_end (v : Buffer) : ∃ l, codingTokens (v ++ [44]) = l ++ [[]] := by
  have h1 : codingTokens (v ++ [44]) = splitFrom [] (lowered v ++ [comma]) := by
    show splitFrom [] (lowered (v ++ [44])) = _
    rw [lowered_append]
    rfl
  rw [h1]
  exact splitFrom_comma_end _ _ _ (Nat.le_refl _)

theorem filterMap_filter_nonempty (l : List JsString) :
    (l.filter (fun t => !t.isEmpty)).filterMap codingTable = l.filterMap codingTable := by
  induction l with
  | nil => rfl
  | cons c cs ih =>
    cases c with
    | nil =>
      have h0 : codingTable [] = none := by decide
      simp [List.filter_cons, List.filterMap_cons, h0, ih]
    | cons a t => simp [List.filter_cons, List.filterMap_cons, ih]

/-! ## Responses end to end, nested calls -/

theorem tagDecode_tagEncode (k : ZlibKind) (x : Buffer) : tagDecode k (tagEncode k x) = x := by
  simp [tagDecode, tagEncode]

theorem effectsOf_append :
    ∀ (a b : List Event) (h : Handler),
      effectsOf h (a ++ b) = effectsOf h a ++ effectsOf (run h a) b := by
  intro a
  induction a with
  | nil => intro b h; rfl
  | cons e a ih =>
    intro b h
    rw [List.cons_append, effectsOf_cons, effectsOf_cons, ih, List.append_assoc]
    rfl

theorem written_append (a b : List Effect) : written (a ++ b) = written a ++ written b := by
  induction a with
  | nil => rfl
  | cons e a ih => cases e <;> simp [written, ih]

theorem sent_cons (e : Event) (es : List Event) : sent (e :: es) = sent [e] ++ sent es := by
  cases e <;> rfl

theorem step_written (h : Handler) (e : Event) (hp : h.decoder.isSome = true) :
    written (step h e).effects = sent [e] := by
  obtain ⟨p, hdec⟩ := Option.isSome_iff_exists.mp hp
  cases e with
  | onHeaders statusCode headers resume statusText downRet =>
    simp only [step, onHeaders]
    cases selectDecoders h.ignoreUnknown headers <;> rfl
  | onData chunk writeRet downRet => simp [step, onData, hdec, written, sent]
  | onComplete trailers => simp [step, onComplete, hdec, written, sent]
  | drain =>
    simp only [step, onDrain, hdec]
    cases h.paused <;> rfl
  | data chunk downRet => simp [step, onDestinationData, hdec, superOnData, written, sent]
  | tailEnd => simp [step, onDestinationEnd, hdec, superOnComplete, written, sent]
  | error err => simp [step, onDestinationError, onError, hdec, written, sent]
  | pipelineCallback err =>
    simp only [step, onPipelineCallback, hdec]
    split <;> rfl
  | resumeHook resume => rfl

theorem written_effectsOf :
    ∀ (es : List Event) (h : Handler), h.decoder.isSome = true →
      written (effectsOf h es) = sent es := by
  intro es
  induction es with
  | nil => intro h _; rfl
  | cons e es ih =>
    intro h hp
    rw [effectsOf_cons, written_append, step_written h e hp, ih _ (step_isSome h e hp),
      ← sent_cons]

theorem sent_onDataCalls (calls : List (Buffer × Bool × JsValue)) :
    sent (onDataCalls calls) = calls.map (fun c => c.1) := by
  induction calls with
  | nil => rfl
  | cons c cs ih =>
    simp only [onDataCalls, List.map_cons, sent] at ih ⊢
    rw [ih]

theorem pipeline_onDataCalls (g : Handler) (hp : g.decoder.isSome = true) :
    ∀ (calls : List (Buffer × Bool × JsValue)),
      effectsOf g (onDataCalls calls) = calls.map (fun c => .write c.1) ∧
        run g (onDataCalls calls) = g := by
  obtain ⟨p, hdec⟩ := Option.isSome_iff_exists.mp hp
  intro calls
  induction calls with
  | nil => exact ⟨rfl, rfl⟩
  | cons c cs ih =>
    have hstep : step g (.onData c.1 c.2.1 c.2.2)
        = ⟨g, [.write c.1], .ok (.boolean (c.2.1 && !g.paused))⟩ := by
      simp [step, onData, hdec]
    constructor
    · show effectsOf g (.onData c.1 c.2.1 c.2.2 :: onDataCalls cs) = _
      rw [effectsOf_cons, hstep]
      simp only [List.map_cons, List.singleton_append]
      exact congrArg _ ih.1
    · show run (step g (.onData c.1 c.2.1 c.2.2)).state (onDataCalls cs) = g
      rw [hstep]
      exact ih.2

theorem response_effects (decode : ZlibKind → Buffer → Buffer) (g : Handler)
    (hp : g.decoder.isSome = true) (calls : List (Buffer × Bool × JsValue))
    (trailers : Trailers) (answer : JsValue) :
    effectsOf g (responseEvents decode g calls trailers answer)
      = calls.map (fun c => .write c.1) ++ .decoderEnd ::
          ((if feed decode g.stages (calls.map (fun c => c.1)).flatten = [] then []
            else [.downstreamOnData (feed decode g.stages (calls.map (fun c => c.1)).flatten)])
            ++ [.downstreamOnComplete trailers]) := by
  obtain ⟨p, hdec⟩ := Option.isSome_iff_exists.mp hp
  obtain ⟨hfx, hrun⟩ := pipeline_onDataCalls g hp calls
  have hcomplete : step g (.onComplete trailers)
      = ⟨{ g with trailers := trailers }, [.decoderEnd], .ok .undefined⟩ := by
    simp [step, onComplete, hdec]
  have hout : chainOutput decode g.stages
        (effectsOf g (onDataCalls calls ++ [.onComplete trailers]))
      = feed decode g.stages (calls.map (fun c => c.1)).flatten := by
    unfold chainOutput
    rw [written_effectsOf _ g hp]
    have : sent (onDataCalls calls ++ [Event.onComplete trailers])
        = calls.map (fun c => c.1) := by
      rw [← sent_onDataCalls]
      induction onDataCalls calls with
      | nil => rfl
      | cons e es ih => rw [List.cons_append, sent_cons, ih, ← sent_cons]
    rw [this]
  unfold responseEvents
  rw [hout, effectsOf_append, hfx, hrun, effectsOf_cons, hcomplete]
  congr 1
  unfold tailEvents
  by_cases hempty : feed decode g.stages (calls.map (fun c => c.1)).flatten = []
  · simp [hempty, effectsOf, trace, step, onDestinationEnd, hdec, superOnComplete]
  · simp [hempty, effectsOf, trace, step, onDestinationEnd, onDestinationData, hdec,
      superOnComplete, superOnData]

theorem deliveries_map_write (calls : List (Buffer × Bool × JsValue)) :
    deliveries (calls.map (fun c => Effect.write c.1)) = [] := by
  induction calls with
  | nil => rfl
  | cons c cs ih => simpa [deliveries] using ih

theorem resumeCount_append (a b : List Effect) :
    resumeCount (a ++ b) = resumeCount a + resumeCount b := by
  induction a with
  | nil => simp [resumeCount]
  | cons e a ih =>
    cases e <;> simp [resumeCount, ih]
    omega

theorem resumeCount_producer :
    ∀ (nested : List Event) (h : Handler), nested.all isProducerCall = true →
      resumeCount (effectsOf h nested) = 0 := by
  intro nested
  induction nested with
  | nil => intro h _; rfl
  | cons e es ih =>
    intro h hall
    simp only [List.all_cons, Bool.and_eq_true] at hall
    rw [effectsOf_cons, resumeCount_append, ih _ hall.2]
    cases e with
    | onHeaders statusCode headers resume statusText downRet =>
      simp only [step, onHeaders]
      cases selectDecoders h.ignoreUnknown headers <;> rfl
    | onData chunk writeRet downRet =>
      simp only [step, onData]
      cases h.decoder <;> rfl
    | onComplete trailers =>
      simp only [step, onComplete]
      cases h.decoder <;> rfl
    | drain => simp [isProducerCall] at hall
    | data chunk downRet => simp [isProducerCall] at hall
    | tailEnd => simp [isProducerCall] at hall
    | error err => simp [isProducerCall] at hall
    | pipelineCallback err => simp [isProducerCall] at hall
    | resumeHook resume => simp [isProducerCall] at hall

/-! ## Claims -/

/-- C1: for a content-encoding value whose tokens are all recognized after
lower-casing, `onHeaders` builds exactly as many stages as there are tokens
(at least one), the stage list is the reverse of the token list mapped through the
coding table, and the `k`-th stage in feeding order decodes token `n + 1 - k`. -/
theorem C1_stages_are_reversed_tokens (h : Handler) (statusCode : Nat)
    (headers : List Buffer) (resume : ResumeFn) (statusText : JsString) (downRet : JsValue)
    (value : Buffer) (hvalue : contentEncodingValue headers = some value)
    (hall : ∀ t ∈ codingTokens value, codingTable t ≠ none) :
    1 ≤ (codingTokens value).length ∧
    (onHeaders h statusCode headers resume statusText downRet).state.stages.length
      = (codingTokens value).length ∧
    (onHeaders h statusCode headers resume statusText downRet).state.stages.map some
      = ((codingTokens value).map codingTable).reverse ∧
    ∀ k, 1 ≤ k → k ≤ (codingTokens value).length →
      ∃ t, (codingTokens value)[(codingTokens value).length - k]? = some t ∧
        (onHeaders h statusCode headers resume statusText downRet).state.stages[k - 1]?
          = codingTable t := by
  have hpos : 1 ≤ (codingTokens value).length :=
    List.length_pos.mpr (codingTokens_ne_nil value)
  have hall' : ∀ t ∈ (codingTokens value).reverse, codingTable t ≠ none :=
    fun t ht => hall t (List.mem_reverse.mp ht)
  have hsel : selectDecoders h.ignoreUnknown headers
      = .ok ((codingTokens value).reverse.filterMap codingTable) := by
    rw [selectDecoders_of_value _ _ _ hvalue, visitCodings_recognized _ _ _ hall']
    simp
  have hmap : ((codingTokens value).reverse.filterMap codingTable).map some
      = ((codingTokens value).map codingTable).reverse := by
    rw [filterMap_map_some _ _ hall', List.map_reverse]
  have hlen : ((codingTokens value).reverse.filterMap codingTable).length
      = (codingTokens value).length := by
    have := congrArg List.length hmap
    simpa using this
  have hne : (codingTokens value).reverse.filterMap codingTable ≠ [] := by
    intro h0
    rw [h0] at hlen
    simp at hlen
    omega
  have hst := onHeaders_stages h statusCode headers resume statusText downRet _ hsel hne
  rw [hst]
  refine ⟨hpos, hlen, hmap, ?_⟩
  intro k hk1 hkn
  have hlt : (codingTokens value).length - k < (codingTokens value).length := by omega
  refine ⟨(codingTokens value)[(codingTokens value).length - k], List.getElem?_eq_getElem hlt, ?_⟩
  have hk : k - 1 < ((codingTokens value).reverse.filterMap codingTable).length := by omega
  have h1 : (((codingTokens value).reverse.filterMap codingTable).map some)[k - 1]?
      = (((codingTokens value).map codingTable).reverse)[k - 1]? := by rw [hmap]
  rw [List.getElem?_map, List.getElem?_eq_getElem hk,
    List.getElem?_reverse (by simpa using (by omega : k - 1 < (codingTokens value).length)),
    List.getElem?_map] at h1
  have hidx : ((codingTokens value).map codingTable).length - 1 - (k - 1)
      = (codingTokens value).length - k := by simp; omega
  rw [hidx, List.getElem?_eq_getElem hlt] at h1
  rw [List.getElem?_eq_getElem hk]
  simpa using h1

/-- C1, at the header set `Content-Encoding: deflate, gzip`. -/
theorem C1_stages_are_reversed_tokens_witness :
    contentEncodingValue [bytes "Content-Encoding", bytes "deflate, gzip"]
        = some (bytes "deflate, gzip") ∧
    (onHeaders (construct none) 200 [bytes "Content-Encoding", bytes "deflate, gzip"] 0
        (str "OK") .undefined).state.stages
      = [createGunzip .Z_SYNC_FLUSH .Z_SYNC_FLUSH, createInflate .Z_SYNC_FLUSH .Z_SYNC_FLUSH] ∧
    (onHeaders (construct none) 200 [bytes "Content-Encoding", bytes "deflate, gzip"] 0
        (str "OK") .undefined).state.stages.map some
      = ((codingTokens (bytes "deflate, gzip")).map codingTable).reverse :=
  ⟨by decide, by decide,
    (C1_stages_are_reversed_tokens (construct none) 200
      [bytes "Content-Encoding", bytes "deflate, gzip"] 0 (str "OK") .undefined
      (bytes "deflate, gzip") (by decide) (by decide)).2.2.1⟩

/-- C2: for codecs given as pairs with `decode (encode x) = x`, and a header
listing recognized codings `C1, ..., Cn`, a body `encode_Cn (... (encode_C1 x))`
handed to `onData` in any chunks is written chunk by chunk to the head of the
chain built by `onHeaders`; the decoders of that chain, applied in feeding
order, give back `x`; and what the tail emits reaches the downstream `onData`,
so the downstream receives exactly `x` (nothing when `x` is empty) before its
`onComplete`. The last part states the same for any interleaving of producer
calls and tail events of a chain that emits what its decoders make of the bytes
written to it. -/
theorem C2_round_trip (encode decode : ZlibKind → Buffer → Buffer)
    (hround : ∀ k x, decode k (encode k x) = x)
    (h : Handler) (statusCode : Nat) (headers : List Buffer) (resume : ResumeFn)
    (statusText : JsString) (downRet : JsValue) (value : Buffer)
    (hvalue : contentEncodingValue headers = some value)
    (hall : ∀ t ∈ codingTokens value, codingTable t ≠ none) (x : Buffer) :
    feed decode (onHeaders h statusCode headers resume statusText downRet).state.stages
      (applyCodings encode (codingTokens value) x) = x ∧
    (∀ (calls : List (Buffer × Bool × JsValue)) (trailers : Trailers) (answer : JsValue),
      (calls.map (fun c => c.1)).flatten = applyCodings encode (codingTokens value) x →
      effectsOf (onHeaders h statusCode headers resume statusText downRet).state
          (responseEvents decode
            (onHeaders h statusCode headers resume statusText downRet).state
            calls trailers answer)
        = calls.map (fun c => .write c.1) ++ .decoderEnd ::
            ((if x = [] then [] else [.downstreamOnData x])
              ++ [.downstreamOnComplete trailers]) ∧
      (deliveries (effectsOf (onHeaders h statusCode headers resume statusText downRet).state
          (responseEvents decode
            (onHeaders h statusCode headers resume statusText downRet).state
            calls trailers answer))).flatten = x) ∧
    (∀ es : List Event,
      (sent es).flatten = applyCodings encode (codingTokens value) x →
      (emitted es).flatten
        = chainOutput decode
            (onHeaders h statusCode headers resume statusText downRet).state.stages
            (effectsOf (onHeaders h statusCode headers resume statusText downRet).state es) →
      written (effectsOf (onHeaders h statusCode headers resume statusText downRet).state es)
        = sent es ∧
      deliveries (effectsOf (onHeaders h statusCode headers resume statusText downRet).state es)
        = emitted es ∧
      (deliveries (effectsOf (onHeaders h statusCode headers resume statusText downRet).state
        es)).flatten = x) := by
  have hst := onHeaders_stages h statusCode headers resume statusText downRet _
    (selectDecoders_recognized h.ignoreUnknown _ _ hvalue hall)
    (recognized_filterMap_ne_nil _ hall)
  have hp : (onHeaders h statusCode headers resume statusText downRet).state.decoder.isSome
      = true := by
    cases hd : (onHeaders h statusCode headers resume statusText downRet).state.decoder with
    | some p => rfl
    | none =>
      have hnil : (onHeaders h statusCode headers resume statusText downRet).state.stages
          = [] := by simp [Handler.stages, hd]
      rw [hst] at hnil
      exact absurd hnil (recognized_filterMap_ne_nil _ hall)
  have hfeed : feed decode
      (onHeaders h statusCode headers resume statusText downRet).state.stages
      (applyCodings encode (codingTokens value) x) = x := by
    rw [hst]
    exact feed_applyCodings encode decode hround _ hall x
  generalize (onHeaders h statusCode headers resume statusText downRet).state = g
    at hp hfeed ⊢
  refine ⟨hfeed, ?_, ?_⟩
  · intro calls trailers answer hbody
    have hfx := response_effects decode g hp calls trailers answer
    rw [hbody, hfeed] at hfx
    refine ⟨hfx, ?_⟩
    rw [hfx, deliveries_append, deliveries_map_write]
    by_cases hx : x = []
    · simp [hx, deliveries]
    · simp [hx, deliveries]
  · intro es hsent hchain
    have hw := written_effectsOf es g hp
    have hd := deliveries_effectsOf es g hp
    refine ⟨hw, hd, ?_⟩
    rw [hd, hchain]
    unfold chainOutput
    rw [hw, hsent]
    exact hfeed

/-- C2, for the toy codec at `Content-Encoding: deflate, gzip` and the payload
`Hello, World!` sent in two chunks: the chain in the built order decodes it, the
reverse order does not, and the downstream receives the payload. -/
theorem C2_round_trip_witness :
    (∀ k x, tagDecode k (tagEncode k x) = x) ∧
    applyCodings tagEncode (codingTokens (bytes "deflate, gzip")) (bytes "Hello, World!")
      = 1 :: 2 :: bytes "Hello, World!" ∧
    feed tagDecode deflateGzipHandler.stages.reverse (1 :: 2 :: bytes "Hello, World!")
      ≠ bytes "Hello, World!" ∧
    effectsOf deflateGzipHandler
        (responseEvents tagDecode deflateGzipHandler
          [(1 :: 2 :: bytes "Hello", true, .undefined), (bytes ", World!", true, .undefined)]
          .null (.boolean true))
      = [.write (1 :: 2 :: bytes "Hello"), .write (bytes ", World!"), .decoderEnd,
          .downstreamOnData (bytes "Hello, World!"), .downstreamOnComplete .null] ∧
    (deliveries (effectsOf
        (onHeaders (construct none) 200 [contentEncodingName, bytes "deflate, gzip"] 0
          (str "OK") .undefined).state
        (responseEvents tagDecode
          (onHeaders (construct none) 200 [contentEncodingName, bytes "deflate, gzip"] 0
            (str "OK") .undefined).state
          [(1 :: 2 :: bytes "Hello", true, .undefined), (bytes ", World!", true, .undefined)]
          .null (.boolean true)))).flatten
      = bytes "Hello, World!" :=
  ⟨tagDecode_tagEncode, by decide, by decide, by decide,
    ((C2_round_trip tagEncode tagDecode tagDecode_tagEncode (construct none) 200
      [contentEncodingName, bytes "deflate, gzip"] 0 (str "OK") .undefined
      (bytes "deflate, gzip") (by decide) (by decide) (bytes "Hello, World!")).2.1
      [(1 :: 2 :: bytes "Hello", true, .undefined), (bytes ", World!", true, .undefined)]
      .null (.boolean true) (by decide)).2⟩

/-- C3: with `ignoreUnknown` false, when the content-encoding value has a token
that is none of `gzip`, `x-gzip`, `deflate`, `br` after lower-casing, `onHeaders`
throws `Invalid coding: ` followed by the rightmost such token, changes nothing
and calls nothing (the downstream `onHeaders` is not invoked). -/
theorem C3_unknown_coding_throws (h : Handler) (statusCode : Nat) (headers : List Buffer)
    (resume : ResumeFn) (statusText : JsString) (downRet : JsValue) (value : Buffer)
    (hign : h.ignoreUnknown = false)
    (hvalue : contentEncodingValue headers = some value)
    (hunknown : ∃ t ∈ codingTokens value, unrecognized t) :
    ∃ pre tok post, codingTokens value = pre ++ tok :: post ∧ unrecognized tok ∧
      (∀ t ∈ post, ¬ unrecognized t) ∧
      onHeaders h statusCode headers resume statusText downRet
        = ⟨h, [], .error (.Error (str "Invalid coding: " ++ tok))⟩ := by
  obtain ⟨pre, tok, post, hl, htok, hpost⟩ := exists_rightmost unrecognized _ hunknown
  refine ⟨pre, tok, post, hl, htok, hpost, ?_⟩
  apply onHeaders_error
  rw [hign, selectDecoders_of_value _ _ _ hvalue, hl]
  have hrev : (pre ++ tok :: post).reverse = post.reverse ++ tok :: pre.reverse := by simp
  rw [hrev]
  apply visitCodings_unknown
  · intro t ht
    have := hpost t (List.mem_reverse.mp ht)
    rwa [unrecognized_iff] at this
  · exact (unrecognized_iff tok).mp htok

/-- C3, at `Content-Encoding: gzip, AAA, br, bbb, deflate`. -/
theorem C3_unknown_coding_throws_witness :
    (construct none).ignoreUnknown = false ∧
    contentEncodingValue [contentEncodingName, bytes "gzip, AAA, br, bbb, deflate"]
      = some (bytes "gzip, AAA, br, bbb, deflate") ∧
    onHeaders (construct none) 200 [contentEncodingName, bytes "gzip, AAA, br, bbb, deflate"] 0
        (str "OK") .undefined
      = ⟨construct none, [], .error (.Error (str "Invalid coding: bbb"))⟩ ∧
    ∃ pre tok post,
      codingTokens (bytes "gzip, AAA, br, bbb, deflate") = pre ++ tok :: post ∧
      unrecognized tok ∧ (∀ t ∈ post, ¬ unrecognized t) ∧
      onHeaders (construct none) 200 [contentEncodingName, bytes "gzip, AAA, br, bbb, deflate"]
          0 (str "OK") .undefined
        = ⟨construct none, [], .error (.Error (str "Invalid coding: " ++ tok))⟩ :=
  ⟨rfl, by decide, by decide,
    C3_unknown_coding_throws (construct none) 200
      [contentEncodingName, bytes "gzip, AAA, br, bbb, deflate"] 0 (str "OK") .undefined
      (bytes "gzip, AAA, br, bbb, deflate") rfl (by decide)
      ⟨str "aaa", by decide, by decide⟩⟩

/-- C4: with `ignoreUnknown` true `onHeaders` does not throw on any
content-encoding value; on a handler without a pipeline the stages it builds are
the reverse of the recognized tokens mapped to their decoders, unknown tokens
adding none; and when every token is unknown no decoder is built, so every chunk
given to `onData` goes to the downstream `onData` unchanged, in order, and the
downstream answer is returned. -/
theorem C4_ignore_unknown (h : Handler) (statusCode : Nat) (headers : List Buffer)
    (resume : ResumeFn) (statusText : JsString) (downRet : JsValue) (value : Buffer)
    (hign : h.ignoreUnknown = true) (hfresh : h.decoder = none)
    (hvalue : contentEncodingValue headers = some value) :
    (onHeaders h statusCode headers resume statusText downRet).result = .ok downRet ∧
    (onHeaders h statusCode headers resume statusText downRet).state.stages
      = ((codingTokens value).filterMap codingTable).reverse ∧
    ((∀ t ∈ codingTokens value, unrecognized t) →
      (onHeaders h statusCode headers resume statusText downRet).state.decoder = none ∧
      ∀ calls : List (Buffer × Bool × JsValue),
        trace (onHeaders h statusCode headers resume statusText downRet).state
            (onDataCalls calls)
          = calls.map (fun c =>
              ⟨(onHeaders h statusCode headers resume statusText downRet).state,
                [.downstreamOnData c.1], .ok c.2.2⟩) ∧
        deliveries (effectsOf (onHeaders h statusCode headers resume statusText downRet).state
            (onDataCalls calls))
          = calls.map (fun c => c.1)) := by
  have hsel : selectDecoders h.ignoreUnknown headers
      = .ok ((codingTokens value).reverse.filterMap codingTable) := by
    rw [hign, selectDecoders_of_value _ _ _ hvalue, visitCodings_ignore]
    simp
  have hout := onHeaders_ok h statusCode headers resume statusText downRet _ hsel
  have hrev : (codingTokens value).reverse.filterMap codingTable
      = ((codingTokens value).filterMap codingTable).reverse := by
    rw [List.filterMap_reverse]
  refine ⟨by rw [hout], ?_, ?_⟩
  · rw [hout, ← hrev]
    cases hds : (codingTokens value).reverse.filterMap codingTable with
    | nil => simp [buildPipeline, Handler.stages, hfresh]
    | cons d rest => rfl
  · intro hall
    have hnil : (codingTokens value).reverse.filterMap codingTable = [] := by
      rw [List.filterMap_eq_nil_iff]
      intro t ht
      exact (unrecognized_iff t).mp (hall t (List.mem_reverse.mp ht))
    have hstate : (onHeaders h statusCode headers resume statusText downRet).state = h := by
      rw [hout, hnil]; rfl
    rw [hstate]
    refine ⟨hfresh, fun calls => ⟨(trace_passthrough h hfresh calls).1, ?_⟩⟩
    rw [effectsOf_passthrough h hfresh calls]
    induction calls with
    | nil => rfl
    | cons c cs ih => simpa [deliveries] using ih

/-- C4, at `Content-Encoding: aaa, GZIP, bbb, br` with `ignoreUnknown: true`. -/
theorem C4_ignore_unknown_witness :
    (construct (some ⟨some true⟩)).ignoreUnknown = true ∧
    (onHeaders (construct (some ⟨some true⟩)) 200
        [contentEncodingName, bytes "aaa, GZIP, bbb, br"] 0 (str "OK") (.boolean true)).result
      = .ok (.boolean true) ∧
    (onHeaders (construct (some ⟨some true⟩)) 200
        [contentEncodingName, bytes "aaa, GZIP, bbb, br"] 0 (str "OK") (.boolean true)).state.stages
      = [createBrotliDecompress .BROTLI_OPERATION_FLUSH .BROTLI_OPERATION_FLUSH,
          createGunzip .Z_SYNC_FLUSH .Z_SYNC_FLUSH] :=
  ⟨rfl,
    (C4_ignore_unknown (construct (some ⟨some true⟩)) 200
      [contentEncodingName, bytes "aaa, GZIP, bbb, br"] 0 (str "OK") (.boolean true)
      (bytes "aaa, GZIP, bbb, br") rfl rfl (by decide)).1,
    by decide⟩

/-- C5: for a header set without a content-encoding entry, on a handler without
a pipeline, `onHeaders` builds none; every chunk then given to `onData` reaches
the downstream `onData` unchanged and in order, each call returning the
downstream answer; and `onComplete` forwards its trailers downstream at once. -/
theorem C5_pass_through (h : Handler) (statusCode : Nat) (headers : List Buffer)
    (resume : ResumeFn) (statusText : JsString) (downRet : JsValue)
    (hfresh : h.decoder = none) (hno : hasContentEncoding headers = false)
    (calls : List (Buffer × Bool × JsValue)) (trailers : Trailers) :
    (onHeaders h statusCode headers resume statusText downRet).state = h ∧
    trace (onHeaders h statusCode headers resume statusText downRet).state (onDataCalls calls)
      = calls.map (fun c => ⟨h, [.downstreamOnData c.1], .ok c.2.2⟩) ∧
    deliveries (effectsOf (onHeaders h statusCode headers resume statusText downRet).state
        (onDataCalls calls))
      = calls.map (fun c => c.1) ∧
    step (run (onHeaders h statusCode headers resume statusText downRet).state
        (onDataCalls calls)) (.onComplete trailers)
      = ⟨h, [.downstreamOnComplete trailers], .ok .undefined⟩ := by
  have hstate : (onHeaders h statusCode headers resume statusText downRet).state = h := by
    rw [onHeaders_ok h statusCode headers resume statusText downRet []
      (selectDecoders_no_entry _ _ hno)]
    rfl
  rw [hstate]
  refine ⟨rfl, (trace_passthrough h hfresh calls).1, ?_, ?_⟩
  · rw [effectsOf_passthrough h hfresh calls]
    induction calls with
    | nil => rfl
    | cons c cs ih => simpa [deliveries] using ih
  · rw [(trace_passthrough h hfresh calls).2]
    simp [step, onComplete, hfresh, superOnComplete]

/-- C5, at the header set `Content-Type: text/plain` and the chunks `hello `,
`world`. -/
theorem C5_pass_through_witness :
    hasContentEncoding [bytes "Content-Type", bytes "text/plain"] = false ∧
    deliveries (effectsOf
        (onHeaders (construct none) 200 [bytes "Content-Type", bytes "text/plain"] 0 (str "OK")
          .undefined).state
        (onDataCalls [(bytes "hello ", true, .boolean true), (bytes "world", true, .boolean false)]))
      = [bytes "hello ", bytes "world"] :=
  ⟨by decide,
    (C5_pass_through (construct none) 200 [bytes "Content-Type", bytes "text/plain"] 0 (str "OK")
      .undefined rfl (by decide)
      [(bytes "hello ", true, .boolean true), (bytes "world", true, .boolean false)]
      .null).2.2.1⟩

/-- C6, as stated, fails: white space before the first token or after the
last one is kept in the token. ` gzip` and `gzip ` are rejected where `gzip` builds
the gunzip stage, and with `ignoreUnknown` they build no stage. -/
theorem C6_outer_white_space_counterexample :
    (onHeaders (construct none) 200 [contentEncodingName, bytes "gzip"] 0 (str "OK")
        .undefined).state.stages = [createGunzip .Z_SYNC_FLUSH .Z_SYNC_FLUSH] ∧
    (onHeaders (construct none) 200 [contentEncodingName, bytes " gzip"] 0 (str "OK")
        .undefined) = ⟨construct none, [], .error (.Error (str "Invalid coding:  gzip"))⟩ ∧
    (onHeaders (construct none) 200 [contentEncodingName, bytes "gzip "] 0 (str "OK")
        .undefined) = ⟨construct none, [], .error (.Error (str "Invalid coding: gzip "))⟩ ∧
    (onHeaders (construct (some ⟨some true⟩)) 200 [contentEncodingName, bytes " gzip"] 0
        (str "OK") .undefined).state.stages = [] ∧
    (onHeaders (construct (some ⟨some true⟩)) 200 [contentEncodingName, bytes "gzip"] 0
        (str "OK") .undefined).state.stages
      ≠ (onHeaders (construct (some ⟨some true⟩)) 200 [contentEncodingName, bytes " gzip"] 0
        (str "OK") .undefined).state.stages := by
  decide

/-- C6, amended: for recognized tokens written in any letter case, with any
amount of white space right before and right after each comma (none before the
first token, none after the last), `onHeaders` selects exactly what it selects for
the plain lower-case value without white space: same stages, same result. -/
theorem C6_case_and_inner_white_space (h : Handler) (statusCode : Nat)
    (headers plain : List Buffer) (resume : ResumeFn) (statusText : JsString)
    (downRet : JsValue) (t0 : Buffer) (items : List (Buffer × Buffer × Buffer))
    (hvalue : contentEncodingValue headers = some (renderValue t0 items))
    (hplain : contentEncodingValue plain = some (plainValue t0 items))
    (ht0 : codingTable (lowered t0) ≠ none)
    (hitems : ∀ i ∈ items, whiteSpaceOnly i.1 = true ∧ whiteSpaceOnly i.2.1 = true ∧
      codingTable (lowered i.2.2) ≠ none) :
    codingTokens (renderValue t0 items) = codingTokens (plainValue t0 items) ∧
    (onHeaders h statusCode headers resume statusText downRet).state
      = (onHeaders h statusCode plain resume statusText downRet).state ∧
    (onHeaders h statusCode headers resume statusText downRet).result
      = (onHeaders h statusCode plain resume statusText downRet).result := by
  have htok : codingTokens (renderValue t0 items) = codingTokens (plainValue t0 items) := by
    rw [codingTokens_renderValue items t0 ht0 hitems,
      codingTokens_plainValue t0 items ht0 (fun i hi => (hitems i hi).2.2)]
  have hsel : selectDecoders h.ignoreUnknown headers = selectDecoders h.ignoreUnknown plain := by
    rw [selectDecoders_of_value _ _ _ hvalue, selectDecoders_of_value _ _ _ hplain, htok]
  refine ⟨htok, ?_, ?_⟩ <;> simp only [onHeaders, hsel] <;>
    cases selectDecoders h.ignoreUnknown plain <;> rfl

/-- C6 amended, at `DEFLATE \t,  X-GZip,Br` against `deflate,x-gzip,br`. -/
theorem C6_case_and_inner_white_space_witness :
    renderValue (bytes "DEFLATE") [(bytes " \t", bytes "  ", bytes "X-GZip"),
        ([], [], bytes "Br")] = bytes "DEFLATE \t,  X-GZip,Br" ∧
    plainValue (bytes "DEFLATE") [(bytes " \t", bytes "  ", bytes "X-GZip"),
        ([], [], bytes "Br")] = bytes "deflate,x-gzip,br" ∧
    (onHeaders (construct none) 200 [contentEncodingName, bytes "DEFLATE \t,  X-GZip,Br"] 0
        (str "OK") .undefined).state
      = (onHeaders (construct none) 200 [contentEncodingName, bytes "deflate,x-gzip,br"] 0
        (str "OK") .undefined).state :=
  ⟨by decide, by decide,
    (C6_case_and_inner_white_space (construct none) 200
      [contentEncodingName, bytes "DEFLATE \t,  X-GZip,Br"]
      [contentEncodingName, bytes "deflate,x-gzip,br"] 0 (str "OK") .undefined
      (bytes "DEFLATE") [(bytes " \t", bytes "  ", bytes "X-GZip"), ([], [], bytes "Br")]
      (by decide) (by decide) (by decide) (by decide)).2.1⟩

/-- C7, as stated, fails: after the downstream `onData` has returned `false`
for the chunk `a`, the handler hands the next chunk the tail emits, `b`, to the
downstream `onData` although the resume hook was never invoked. -/
theorem C7_delivery_while_paused_counterexample :
    gzipHandler.decoder.isSome = true ∧
    (step gzipHandler (.data (bytes "a") (.boolean false))).state.paused = true ∧
    (step (step gzipHandler (.data (bytes "a") (.boolean false))).state
        (.data (bytes "b") (.boolean true))).effects = [.downstreamOnData (bytes "b")] ∧
    pauseRespected gzipHandler false
        [.data (bytes "a") (.boolean false), .data (bytes "b") (.boolean true)] = false := by
  decide

/-- C7, amended: in every run with an active pipeline every chunk the tail
emits is handed to the downstream `onData` exactly once and in emission order,
whatever the paused flag is. A downstream `onData` that returns `false` sets the
paused flag, which makes the handler's `onData` return `false`; a chunk the tail
emits in that state is still delivered. -/
theorem C7_emitted_chunks_delivered_in_order (h : Handler) (hp : h.decoder.isSome = true)
    (es : List Event) :
    deliveries (effectsOf h es) = emitted es ∧
    ∀ chunk : Buffer,
      (step (run h es) (.data chunk (.boolean false))).state.paused = true ∧
      (∀ (c : Buffer) (w : Bool) (d : JsValue),
        (onData (step (run h es) (.data chunk (.boolean false))).state c w d).result
          = .ok (.boolean false)) ∧
      ∀ (c : Buffer) (d : JsValue),
        (step (step (run h es) (.data chunk (.boolean false))).state (.data c d)).effects
          = [.downstreamOnData c] := by
  refine ⟨deliveries_effectsOf es h hp, fun chunk => ?_⟩
  obtain ⟨p, hdec⟩ := Option.isSome_iff_exists.mp (run_invariant es h hp).1
  refine ⟨?_, ?_, ?_⟩
  · simp [step, onDestinationData, hdec]
  · intro c w d
    simp [step, onDestinationData, onData, hdec]
  · intro c d
    simp [step, onDestinationData, hdec, superOnData]

/-- C7 amended, at a gzip pipeline that emits `a`, is written to, and emits `b`. -/
theorem C7_emitted_chunks_delivered_in_order_witness :
    gzipHandler.decoder.isSome = true ∧
    deliveries (effectsOf gzipHandler
        [.data (bytes "a") (.boolean false), .onData (bytes "z") true .undefined,
          .data (bytes "b") (.boolean true)])
      = [bytes "a", bytes "b"] :=
  ⟨by decide,
    (C7_emitted_chunks_delivered_in_order gzipHandler (by decide)
      [.data (bytes "a") (.boolean false), .onData (bytes "z") true .undefined,
        .data (bytes "b") (.boolean true)]).1⟩

/-- C8: with an active pipeline `onComplete(trailers)` ends the head once and
calls nothing downstream. From then on, until `onComplete` is called again, only
the tail's end event calls the downstream `onComplete`; it does so with exactly
those trailers, and every chunk the tail emitted before has been delivered
before. -/
theorem C8_completion_waits_for_tail_end (h : Handler) (hp : h.decoder.isSome = true)
    (trailers : Trailers) (es : List Event) (hno : ∀ t, Event.onComplete t ∉ es) :
    onComplete h trailers = ⟨{ h with trailers := trailers }, [.decoderEnd], .ok .undefined⟩ ∧
    (∀ (e : Event) (x : Trailers),
      .downstreamOnComplete x ∈ (step (run (onComplete h trailers).state es) e).effects →
        e = .tailEnd ∧ x = trailers) ∧
    (step (run (onComplete h trailers).state es) .tailEnd).effects
      = [.downstreamOnComplete trailers] ∧
    (∀ x, .downstreamOnComplete x ∈ effectsOf (onComplete h trailers).state es →
      .tailEnd ∈ es) ∧
    deliveries (effectsOf (onComplete h trailers).state es) = emitted es := by
  obtain ⟨p, hdec⟩ := Option.isSome_iff_exists.mp hp
  have hout : onComplete h trailers
      = ⟨{ h with trailers := trailers }, [.decoderEnd], .ok .undefined⟩ := by
    simp [onComplete, hdec]
  have hp1 : (onComplete h trailers).state.decoder.isSome = true := by rw [hout]; exact hp
  have htr1 : (onComplete h trailers).state.trailers = trailers := by rw [hout]
  obtain ⟨hsome, htr⟩ := run_invariant es _ hp1
  have htr2 := (htr hno).trans htr1
  obtain ⟨q, hq⟩ := Option.isSome_iff_exists.mp hsome
  have hend : (step (run (onComplete h trailers).state es) .tailEnd).effects
      = [.downstreamOnComplete trailers] := by
    simp [step, onDestinationEnd, hq, superOnComplete, htr2]
  refine ⟨hout, ?_, hend, ?_, deliveries_effectsOf es _ hp1⟩
  · intro e x hx
    obtain ⟨he, hxe⟩ := step_complete_mem _ e x hsome hx
    exact ⟨he, hxe.trans htr2⟩
  · intro x hx
    exact complete_mem_effectsOf x es _ hp1 hx

/-- C8, at a gzip pipeline: `onComplete` with one trailer, two chunks emitted,
then the tail's end. -/
theorem C8_completion_waits_for_tail_end_witness :
    gzipHandler.decoder.isSome = true ∧
    (onComplete gzipHandler (.raw [bytes "x-checksum", bytes "abc"])).effects = [.decoderEnd] ∧
    (step (run (onComplete gzipHandler (.raw [bytes "x-checksum", bytes "abc"])).state
        [.data (bytes "Hello, ") (.boolean true), .data (bytes "World!") (.boolean true)])
        .tailEnd).effects
      = [.downstreamOnComplete (.raw [bytes "x-checksum", bytes "abc"])] :=
  ⟨by decide, by decide,
    (C8_completion_waits_for_tail_end gzipHandler (by decide)
      (.raw [bytes "x-checksum", bytes "abc"])
      [.data (bytes "Hello, ") (.boolean true), .data (bytes "World!") (.boolean true)]
      (fun t ht => by simp at ht)).2.2.1⟩

/-- C9, at the failing input: with the two-stage chain of `deflate, gzip`, an
error raised by the last stage reaches the listener of line 58 and the callback
of lines 51-55, so the downstream `onError` is called twice with it; with the
one-stage chain of `gzip` it is called once. -/
theorem C9_tail_error_reported_twice :
    deflateGzipHandler.stages
      = [createGunzip .Z_SYNC_FLUSH .Z_SYNC_FLUSH, createInflate .Z_SYNC_FLUSH .Z_SYNC_FLUSH] ∧
    effectsOf deflateGzipHandler
        (tailStageFails deflateGzipHandler (str "incorrect header check"))
      = [.downstreamOnError (str "incorrect header check"),
          .downstreamOnError (str "incorrect header check")] ∧
    errorCount (effectsOf deflateGzipHandler
        (tailStageFails deflateGzipHandler (str "incorrect header check"))) = 2 ∧
    errorCount (effectsOf gzipHandler
        (tailStageFails gzipHandler (str "incorrect header check"))) = 1 := by
  decide

/-- C10: with an active pipeline `onData(chunk)` writes the chunk to the head
exactly once, changes no state, and returns `true` exactly when the write
reported room and the paused flag is false; it returns `false` when the head is
saturated or the consumer has paused. -/
theorem C10_onData_writes_and_reports (h : Handler) (chunk : Buffer) (writeRet : Bool)
    (downRet : JsValue) (hp : h.decoder.isSome = true) :
    onData h chunk writeRet downRet
      = ⟨h, [.write chunk], .ok (.boolean (writeRet && !h.paused))⟩ ∧
    ((onData h chunk writeRet downRet).result = .ok (.boolean true)
      ↔ (writeRet = true ∧ h.paused = false)) ∧
    ((writeRet = false ∨ h.paused = true) →
      (onData h chunk writeRet downRet).result = .ok (.boolean false)) := by
  obtain ⟨p, hdec⟩ := Option.isSome_iff_exists.mp hp
  have hout : onData h chunk writeRet downRet
      = ⟨h, [.write chunk], .ok (.boolean (writeRet && !h.paused))⟩ := by
    simp [onData, hdec]
  refine ⟨hout, ?_, ?_⟩
  · rw [hout]
    cases writeRet <;> cases h.paused <;> simp
  · rw [hout]
    cases writeRet <;> cases h.paused <;> simp

/-- C10, at a gzip pipeline whose consumer has paused: the write reports room,
`onData` still returns `false`. -/
theorem C10_onData_writes_and_reports_witness :
    (step gzipHandler (.data (bytes "a") (.boolean false))).state.decoder.isSome = true ∧
    onData (step gzipHandler (.data (bytes "a") (.boolean false))).state (bytes "b") true
        .undefined
      = ⟨(step gzipHandler (.data (bytes "a") (.boolean false))).state, [.write (bytes "b")],
          .ok (.boolean false)⟩ :=
  ⟨by decide,
    (C10_onData_writes_and_reports (step gzipHandler (.data (bytes "a") (.boolean false))).state
      (bytes "b") true .undefined (by decide)).1⟩

/-- C11, as stated, fails: the wrapper calls `resume()` before it clears the
flag, so it is not atomic with respect to the pause state. On a paused gzip
pipeline a producer that calls `onData` from inside `resume()` is answered
`false` although the write reported room and the consumer has just asked for
more; the same call is answered `true` once the flag is cleared. -/
theorem C11_stale_flag_during_resume_counterexample :
    pausedGzipHandler.paused = true ∧
    nestedResults pausedGzipHandler [.onData (bytes "b") true .undefined]
      = [.ok (.boolean false)] ∧
    nestedResults { pausedGzipHandler with paused := false }
        [.onData (bytes "b") true .undefined]
      = [.ok (.boolean true)] ∧
    hookAtomic pausedGzipHandler [.onData (bytes "b") true .undefined] = false ∧
    (resumeHookNested pausedGzipHandler 0 [.onData (bytes "b") true .undefined]).effects
      = [.resume 0, .write (bytes "b")] ∧
    (resumeHookNested pausedGzipHandler 0 [.onData (bytes "b") true .undefined]).state.paused
      = false := by
  decide

/-- C11, amended: the function `onHeaders` passes downstream is the wrapper
around the `resume` it received, not that `resume`. Invoked in any state, the
wrapper first calls the original `resume`, once (calls the producer makes on the
handler from inside it add no further `resume`), and then sets the paused flag
to false, so the flag is false when the wrapper returns whatever happened
inside `resume()`. The flag is not cleared before: a call made from inside
`resume()` meets the flag as the wrapper found it, and a paused pipeline answers
such an `onData` with `false`. -/
theorem C11_resume_then_clear (h : Handler) (resume : ResumeFn) (nested : List Event) :
    (∀ (statusCode : Nat) (headers : List Buffer) (statusText : JsString) (downRet : JsValue)
      (ds : List ZlibStream), selectDecoders h.ignoreUnknown headers = .ok ds →
      (onHeaders h statusCode headers resume statusText downRet).effects
        = [.downstreamOnHeaders statusCode headers (.wrapper resume) statusText]) ∧
    invokeResume h nested (.wrapper resume) = resumeHookNested h resume nested ∧
    (resumeHookNested h resume nested).effects = .resume resume :: effectsOf h nested ∧
    (nested.all isProducerCall = true →
      resumeCount (resumeHookNested h resume nested).effects = 1) ∧
    (resumeHookNested h resume nested).state = { run h nested with paused := false } ∧
    (resumeHookNested h resume nested).state.paused = false ∧
    resumeHookNested h resume [] = step h (.resumeHook resume) ∧
    (h.paused = true → h.decoder.isSome = true →
      ∀ (chunk : Buffer) (w : Bool) (d : JsValue) (more : List Event),
        (nestedResults h (.onData chunk w d :: more)).head? = some (.ok (.boolean false)) ∧
        (resumeHookNested h resume [.onData chunk w d]).effects
          = [.resume resume, .write chunk]) := by
  refine ⟨?_, rfl, rfl, ?_, rfl, rfl, rfl, ?_⟩
  · intro statusCode headers statusText downRet ds hsel
    rw [onHeaders_ok h statusCode headers resume statusText downRet ds hsel]
    rfl
  · intro hall
    show resumeCount (.resume resume :: effectsOf h nested) = 1
    simp [resumeCount, resumeCount_producer nested h hall]
  · intro hpa hp chunk w d more
    obtain ⟨p, hdec⟩ := Option.isSome_iff_exists.mp hp
    constructor
    · simp [nestedResults, trace, step, onData, hdec, hpa]
    · simp [resumeHookNested, effectsOf, trace, step, onData, hdec]

/-- C11 amended, at a paused gzip pipeline whose producer calls `onData` and
`onComplete` from inside `resume()`. -/
theorem C11_resume_then_clear_witness :
    pausedGzipHandler.paused = true ∧
    resumeCount (resumeHookNested pausedGzipHandler 0
        [.onData (bytes "b") true .undefined, .onComplete .null]).effects = 1 ∧
    (resumeHookNested pausedGzipHandler 0
        [.onData (bytes "b") true .undefined, .onComplete .null]).effects
      = [.resume 0, .write (bytes "b"), .decoderEnd] ∧
    (nestedResults pausedGzipHandler
        (.onData (bytes "b") true .undefined :: [.onComplete .null])).head?
      = some (.ok (.boolean false)) :=
  ⟨by decide,
    (C11_resume_then_clear pausedGzipHandler 0
      [.onData (bytes "b") true .undefined, .onComplete .null]).2.2.2.1 (by decide),
    by decide,
    ((C11_resume_then_clear pausedGzipHandler 0
      [.onData (bytes "b") true .undefined, .onComplete .null]).2.2.2.2.2.2.2
      (by decide) (by decide) (bytes "b") true .undefined [.onComplete .null]).1⟩

/-- C12, as stated, fails: with the paused flag set by a downstream `onData`
that returned `false`, the next `onData(chunk)` still writes the chunk to the
pipeline head. -/
theorem C12_write_while_paused_counterexample :
    pausedGzipHandler.decoder.isSome = true ∧
    pausedGzipHandler.paused = true ∧
    (onData pausedGzipHandler (bytes "b") true .undefined).effects = [.write (bytes "b")] ∧
    writeCount (onData pausedGzipHandler (bytes "b") true .undefined).effects = 1 := by
  decide

/-- C12, amended: with an active pipeline, a downstream `onData` call that
returns `false` sets the paused flag, and while the flag is set every
`onData(chunk)` call returns `false` to the producer; the call still writes the
chunk to the pipeline head, once. -/
theorem C12_paused_onData_returns_false (h : Handler) (hp : h.decoder.isSome = true)
    (chunk : Buffer) :
    (step h (.data chunk (.boolean false))).state.paused = true ∧
    (step h (.data chunk (.boolean false))).effects = [.downstreamOnData chunk] ∧
    (h.paused = true → ∀ (c : Buffer) (w : Bool) (d : JsValue),
      onData h c w d = ⟨h, [.write c], .ok (.boolean false)⟩) := by
  obtain ⟨p, hdec⟩ := Option.isSome_iff_exists.mp hp
  refine ⟨?_, ?_, ?_⟩
  · simp [step, onDestinationData, hdec]
  · simp [step, onDestinationData, hdec, superOnData]
  · intro hpa c w d
    simp [onData, hdec, hpa]

/-- C12 amended, at a gzip pipeline whose consumer refuses the chunk `a`. -/
theorem C12_paused_onData_returns_false_witness :
    gzipHandler.decoder.isSome = true ∧
    (step gzipHandler (.data (bytes "a") (.boolean false))).state.paused = true ∧
    (step gzipHandler (.data (bytes "a") (.boolean false))).effects
      = [.downstreamOnData (bytes "a")] :=
  ⟨by decide,
    (C12_paused_onData_returns_false gzipHandler (by decide) (bytes "a")).1,
    (C12_paused_onData_returns_false gzipHandler (by decide) (bytes "a")).2.1⟩

/-- C15: when the head of the pipeline drains, the upstream `resume` is called
exactly once if the paused flag is false and not at all if it is true; the
drain listener changes no state, the paused flag included. -/
theorem C15_drain_resumes_unless_paused (h : Handler) (p : Pipeline)
    (hdec : h.decoder = some p) :
    (h.paused = false → (step h .drain).effects = [.resume p.resume] ∧
      resumeCount (step h .drain).effects = 1) ∧
    (h.paused = true → (step h .drain).effects = [] ∧
      resumeCount (step h .drain).effects = 0) ∧
    (step h .drain).state = h := by
  refine ⟨?_, ?_, ?_⟩
  · intro hpa
    simp [step, onDrain, hdec, hpa, resumeCount]
  · intro hpa
    simp [step, onDrain, hdec, hpa, resumeCount]
  · simp [step, onDrain, hdec]

/-- C15, at a gzip pipeline before and after its consumer has paused. -/
theorem C15_drain_resumes_unless_paused_witness :
    gzipHandler.decoder = some ⟨createGunzip .Z_SYNC_FLUSH .Z_SYNC_FLUSH, [], 0⟩ ∧
    (step gzipHandler .drain).effects = [.resume 0] ∧
    pausedGzipHandler.decoder = some ⟨createGunzip .Z_SYNC_FLUSH .Z_SYNC_FLUSH, [], 0⟩ ∧
    (step pausedGzipHandler .drain).effects = [] :=
  ⟨by decide,
    ((C15_drain_resumes_unless_paused gzipHandler
      ⟨createGunzip .Z_SYNC_FLUSH .Z_SYNC_FLUSH, [], 0⟩ (by decide)).1 (by decide)).1,
    by decide,
    ((C15_drain_resumes_unless_paused pausedGzipHandler
      ⟨createGunzip .Z_SYNC_FLUSH .Z_SYNC_FLUSH, [], 0⟩ (by decide)).2.1 (by decide)).1⟩

/-- C16: whenever coding selection succeeds, `onHeaders` calls the downstream
`onHeaders` exactly once, with the status code, the header set (content-encoding
entry included) and the status text it received, makes no other call, and
returns what the downstream returned. -/
theorem C16_onHeaders_forwards_unchanged (h : Handler) (statusCode : Nat)
    (headers : List Buffer) (resume : ResumeFn) (statusText : JsString) (downRet : JsValue)
    (ds : List ZlibStream) (hsel : selectDecoders h.ignoreUnknown headers = .ok ds) :
    (onHeaders h statusCode headers resume statusText downRet).effects
      = [.downstreamOnHeaders statusCode headers (.wrapper resume) statusText] ∧
    (onHeaders h statusCode headers resume statusText downRet).result = .ok downRet := by
  rw [onHeaders_ok h statusCode headers resume statusText downRet ds hsel]
  exact ⟨rfl, rfl⟩

/-- C16, at `Content-Encoding: gzip` with a downstream that returns `true`. -/
theorem C16_onHeaders_forwards_unchanged_witness :
    selectDecoders (construct none).ignoreUnknown [contentEncodingName, bytes "gzip"]
      = .ok [createGunzip .Z_SYNC_FLUSH .Z_SYNC_FLUSH] ∧
    (onHeaders (construct none) 200 [contentEncodingName, bytes "gzip"] 7 (str "OK")
        (.boolean true)).effects
      = [.downstreamOnHeaders 200 [contentEncodingName, bytes "gzip"] (.wrapper 7) (str "OK")] ∧
    (onHeaders (construct none) 200 [contentEncodingName, bytes "gzip"] 7 (str "OK")
        (.boolean true)).result = .ok (.boolean true) :=
  ⟨by decide,
    (C16_onHeaders_forwards_unchanged (construct none) 200 [contentEncodingName, bytes "gzip"]
      7 (str "OK") (.boolean true) [createGunzip .Z_SYNC_FLUSH .Z_SYNC_FLUSH] (by decide)).1,
    (C16_onHeaders_forwards_unchanged (construct none) 200 [contentEncodingName, bytes "gzip"]
      7 (str "OK") (.boolean true) [createGunzip .Z_SYNC_FLUSH .Z_SYNC_FLUSH] (by decide)).2⟩

/-- C18: for a dispatch whose method is exactly `HEAD` or `CONNECT` the
interceptor passes the handler it was given; for every other method it passes a
new `ContentEncodingHandler` around that handler, built with the interceptor's
options; either way `dispatch` gets the same dispatch options and its result is
returned. -/
theorem C18_interceptor_bypasses_bodiless {H R : Type} (opts : Option Options)
    (dispatch : DispatchOptions → DispatchHandler H → R) (dispatchOpts : DispatchOptions)
    (handler : H) :
    ((dispatchOpts.method = some (str "HEAD") ∨ dispatchOpts.method = some (str "CONNECT")) →
      contentEncoding opts dispatch dispatchOpts handler
        = dispatch dispatchOpts (.original handler)) ∧
    (¬ (dispatchOpts.method = some (str "HEAD") ∨ dispatchOpts.method = some (str "CONNECT")) →
      contentEncoding opts dispatch dispatchOpts handler
        = dispatch dispatchOpts (.contentEncodingHandler handler (construct opts))) := by
  constructor
  · intro hm
    simp only [contentEncoding, hm, if_true]
  · intro hm
    simp only [contentEncoding, hm, if_false]

/-- C18, at the methods `HEAD`, `GET` and the lower-case `head`, with a dispatch
that returns what it is given. -/
theorem C18_interceptor_bypasses_bodiless_witness :
    contentEncoding (some ⟨some true⟩) (fun o k => (o, k)) ⟨some (str "HEAD"), 0⟩ (5 : Nat)
      = (⟨some (str "HEAD"), 0⟩, .original 5) ∧
    contentEncoding (some ⟨some true⟩) (fun o k => (o, k)) ⟨some (str "GET"), 0⟩ (5 : Nat)
      = (⟨some (str "GET"), 0⟩, .contentEncodingHandler 5 (construct (some ⟨some true⟩))) ∧
    contentEncoding none (fun o k => (o, k)) ⟨some (str "head"), 0⟩ (5 : Nat)
      = (⟨some (str "head"), 0⟩, .contentEncodingHandler 5 (construct none)) :=
  ⟨(C18_interceptor_bypasses_bodiless (some ⟨some true⟩) (fun o k => (o, k))
      ⟨some (str "HEAD"), 0⟩ (5 : Nat)).1 (Or.inl rfl),
    (C18_interceptor_bypasses_bodiless (some ⟨some true⟩) (fun o k => (o, k))
      ⟨some (str "GET"), 0⟩ (5 : Nat)).2 (by decide),
    (C18_interceptor_bypasses_bodiless none (fun o k => (o, k))
      ⟨some (str "head"), 0⟩ (5 : Nat)).2 (by decide)⟩

/-- C13: a freshly constructed handler has the paused flag false; in every
state reached from it by any sequence of method calls, pipeline events and
resume-hook invocations, the flag is true only if the most recent downstream
`onData` call returned `false` and the resume hook has not been invoked since;
and the flag is never true while no pipeline exists (pass-through). -/
theorem C13_paused_flag_invariant (opts : Option Options) (es : List Event) :
    (construct opts).paused = false ∧
    ((run (construct opts) es).paused = true →
      lastDeliveryRefused (construct opts) false es = true) ∧
    ((run (construct opts) es).decoder = none → (run (construct opts) es).paused = false) := by
  obtain ⟨h1, h2⟩ := run_paused_invariant es (construct opts) false
    (fun hp => by simp [construct] at hp) (fun _ => rfl)
  exact ⟨rfl, h1, h2⟩

/-- C13, at a run that pauses, resumes and pauses again. -/
theorem C13_paused_flag_invariant_witness :
    (run (construct none)
        [.onHeaders 200 [contentEncodingName, bytes "gzip"] 0 (str "OK") .undefined,
          .data (bytes "a") (.boolean false), .resumeHook 0, .drain,
          .data (bytes "b") (.boolean false)]).paused = true ∧
    lastDeliveryRefused (construct none) false
        [.onHeaders 200 [contentEncodingName, bytes "gzip"] 0 (str "OK") .undefined,
          .data (bytes "a") (.boolean false), .resumeHook 0, .drain,
          .data (bytes "b") (.boolean false)] = true :=
  ⟨by decide,
    (C13_paused_flag_invariant none
      [.onHeaders 200 [contentEncodingName, bytes "gzip"] 0 (str "OK") .undefined,
        .data (bytes "a") (.boolean false), .resumeHook 0, .drain,
        .data (bytes "b") (.boolean false)]).2.1 (by decide)⟩

/-- C14, as stated, fails: with `ignoreUnknown` true `onHeaders` succeeds on
`aaa` with one token and no stage, and on `gzip, aaa` with two tokens and one
stage. -/
theorem C14_stage_count_counterexample :
    (onHeaders (construct (some ⟨some true⟩)) 200 [contentEncodingName, bytes "aaa"] 0
        (str "OK") .undefined).result = .ok .undefined ∧
    (onHeaders (construct (some ⟨some true⟩)) 200 [contentEncodingName, bytes "aaa"] 0
        (str "OK") .undefined).state.stages.length = 0 ∧
    (codingTokens (bytes "aaa")).length = 1 ∧
    (onHeaders (construct (some ⟨some true⟩)) 200 [contentEncodingName, bytes "gzip, aaa"] 0
        (str "OK") .undefined).result = .ok .undefined ∧
    (onHeaders (construct (some ⟨some true⟩)) 200 [contentEncodingName, bytes "gzip, aaa"] 0
        (str "OK") .undefined).state.stages.length = 1 ∧
    (codingTokens (bytes "gzip, aaa")).length = 2 := by
  decide

/-- C14, amended: whenever `onHeaders` succeeds on a content-encoding value (on
a handler without a pipeline), the number of stages built is the number of
recognized tokens of the value; with `ignoreUnknown` false success means every
token is recognized, so it is the number of all tokens. -/
theorem C14_stage_count_is_recognized_count (h : Handler) (statusCode : Nat)
    (headers : List Buffer) (resume : ResumeFn) (statusText : JsString) (downRet : JsValue)
    (value : Buffer) (hfresh : h.decoder = none)
    (hvalue : contentEncodingValue headers = some value)
    (hok : ∃ v, (onHeaders h statusCode headers resume statusText downRet).result = .ok v) :
    (onHeaders h statusCode headers resume statusText downRet).state.stages.length
      = ((codingTokens value).filterMap codingTable).length ∧
    (h.ignoreUnknown = false →
      (∀ t ∈ codingTokens value, ¬ unrecognized t) ∧
      (onHeaders h statusCode headers resume statusText downRet).state.stages.length
        = (codingTokens value).length) := by
  obtain ⟨v, hv⟩ := hok
  have hstages : ∀ ds, selectDecoders h.ignoreUnknown headers = .ok ds →
      (onHeaders h statusCode headers resume statusText downRet).state.stages = ds := by
    intro ds hsel
    rw [onHeaders_ok h statusCode headers resume statusText downRet ds hsel]
    cases ds with
    | nil => simp [buildPipeline, Handler.stages, hfresh]
    | cons d rest => rfl
  cases hsel : selectDecoders h.ignoreUnknown headers with
  | error e =>
    rw [onHeaders_error h statusCode headers resume statusText downRet e hsel] at hv
    simp at hv
  | ok ds =>
    rw [hstages ds hsel]
    rw [selectDecoders_of_value _ _ _ hvalue] at hsel
    cases hign : h.ignoreUnknown with
    | true =>
      rw [hign, visitCodings_ignore] at hsel
      simp only [List.nil_append, Except.ok.injEq] at hsel
      rw [← hsel, List.filterMap_reverse, List.length_reverse]
      exact ⟨rfl, fun hf => by simp at hf⟩
    | false =>
      rw [hign] at hsel
      obtain ⟨hall, hres⟩ := visitCodings_strict_ok _ _ _ hsel
      simp only [List.nil_append] at hres
      have hall' : ∀ t ∈ codingTokens value, codingTable t ≠ none :=
        fun t ht => hall t (List.mem_reverse.mpr ht)
      have hlen : ((codingTokens value).filterMap codingTable).length
          = (codingTokens value).length := by
        have := congrArg List.length (filterMap_map_some codingTable _ hall')
        simpa using this
      rw [hres, List.filterMap_reverse, List.length_reverse]
      refine ⟨rfl, fun _ => ⟨?_, hlen⟩⟩
      intro t ht hun
      exact hall' t ht ((unrecognized_iff t).mp hun)

/-- C14 amended, at `Content-Encoding: gzip, aaa, br` with `ignoreUnknown: true`:
three tokens, two recognized, two stages. -/
theorem C14_stage_count_is_recognized_count_witness :
    contentEncodingValue [contentEncodingName, bytes "gzip, aaa, br"]
      = some (bytes "gzip, aaa, br") ∧
    (codingTokens (bytes "gzip, aaa, br")).length = 3 ∧
    ((codingTokens (bytes "gzip, aaa, br")).filterMap codingTable).length = 2 ∧
    (onHeaders (construct (some ⟨some true⟩)) 200 [contentEncodingName, bytes "gzip, aaa, br"]
        0 (str "OK") .undefined).state.stages.length
      = ((codingTokens (bytes "gzip, aaa, br")).filterMap codingTable).length :=
  ⟨by decide, by decide, by decide,
    (C14_stage_count_is_recognized_count (construct (some ⟨some true⟩)) 200
      [contentEncodingName, bytes "gzip, aaa, br"] 0 (str "OK") .undefined
      (bytes "gzip, aaa, br") rfl (by decide) ⟨.undefined, by decide⟩).1⟩

/-- C17: for every header set, `onHeaders` selects, builds and returns or throws
exactly what it does for the header set with every content-encoding entry after
the first removed; the removed entries hold no content-encoding value any more,
so codings listed in later entries are neither decoded nor rejected. -/
theorem C17_first_entry_decides (h : Handler) (statusCode : Nat) (headers : List Buffer)
    (resume : ResumeFn) (statusText : JsString) (downRet : JsValue) :
    selectDecoders h.ignoreUnknown headers
      = selectDecoders h.ignoreUnknown (keepFirstContentEncoding headers) ∧
    (onHeaders h statusCode headers resume statusText downRet).state
      = (onHeaders h statusCode (keepFirstContentEncoding headers) resume statusText
          downRet).state ∧
    (onHeaders h statusCode headers resume statusText downRet).result
      = (onHeaders h statusCode (keepFirstContentEncoding headers) resume statusText
          downRet).result ∧
    contentEncodingValue (keepFirstContentEncoding headers) = contentEncodingValue headers ∧
    (∀ name value rest, isContentEncoding name = true →
      keepFirstContentEncoding (name :: value :: rest)
        = name :: value :: dropContentEncoding rest ∧
      contentEncodingValue (dropContentEncoding rest) = none) := by
  have hsel := (selectDecoders_keepFirst h.ignoreUnknown headers).symm
  refine ⟨hsel, ?_, ?_, ?_, ?_⟩
  · simp only [onHeaders, hsel]
    cases selectDecoders h.ignoreUnknown (keepFirstContentEncoding headers) <;> rfl
  · simp only [onHeaders, hsel]
    cases selectDecoders h.ignoreUnknown (keepFirstContentEncoding headers) <;> rfl
  · clear hsel
    induction headers using keepFirstContentEncoding.induct with
    | case1 name value rest hname =>
      simp [keepFirstContentEncoding, contentEncodingValue, hname]
    | case2 name value rest hname ih =>
      simpa [keepFirstContentEncoding, contentEncodingValue, hname] using ih
    | case3 l hl =>
      cases l with
      | nil => rfl
      | cons a t =>
        cases t with
        | nil => rfl
        | cons b t2 => exact absurd rfl (hl a b t2)
  · intro name value rest hname
    exact ⟨by simp [keepFirstContentEncoding, hname], contentEncodingValue_drop rest⟩

/-- C17, at a header set with three content-encoding entries: `gzip`, then the
unknown `aaa`, then `br`. -/
theorem C17_first_entry_decides_witness :
    keepFirstContentEncoding
        [bytes "Content-Type", bytes "text/plain", contentEncodingName, bytes "gzip",
          bytes "content-encoding", bytes "aaa", bytes "X-Id", bytes "1",
          bytes "CONTENT-ENCODING", bytes "br"]
      = [bytes "Content-Type", bytes "text/plain", contentEncodingName, bytes "gzip",
          bytes "X-Id", bytes "1"] ∧
    (onHeaders (construct none) 200
        [bytes "Content-Type", bytes "text/plain", contentEncodingName, bytes "gzip",
          bytes "content-encoding", bytes "aaa", bytes "X-Id", bytes "1",
          bytes "CONTENT-ENCODING", bytes "br"] 0 (str "OK") .undefined).state.stages
      = [createGunzip .Z_SYNC_FLUSH .Z_SYNC_FLUSH] ∧
    (onHeaders (construct none) 200
        [bytes "Content-Type", bytes "text/plain", contentEncodingName, bytes "gzip",
          bytes "content-encoding", bytes "aaa", bytes "X-Id", bytes "1",
          bytes "CONTENT-ENCODING", bytes "br"] 0 (str "OK") .undefined).result
      = (onHeaders (construct none) 200
          (keepFirstContentEncoding
            [bytes "Content-Type", bytes "text/plain", contentEncodingName, bytes "gzip",
              bytes "content-encoding", bytes "aaa", bytes "X-Id", bytes "1",
              bytes "CONTENT-ENCODING", bytes "br"]) 0 (str "OK") .undefined).result :=
  ⟨by decide, by decide,
    (C17_first_entry_decides (construct none) 200
      [bytes "Content-Type", bytes "text/plain", contentEncodingName, bytes "gzip",
        bytes "content-encoding", bytes "aaa", bytes "X-Id", bytes "1",
        bytes "CONTENT-ENCODING", bytes "br"] 0 (str "OK") .undefined).2.2.1⟩

/-- C19: the empty token is unknown. With `ignoreUnknown` false, a
content-encoding value that is empty, that ends in a comma, or whose rightmost
unrecognized token is empty makes `onHeaders` throw `Invalid coding: ` followed
by nothing. With `ignoreUnknown` true (on a handler without a pipeline) empty
tokens add no stage, and an empty value leaves the handler in pass-through:
`onData` forwards every chunk and returns the downstream answer. -/
theorem C19_empty_token_is_unknown (h : Handler) (statusCode : Nat) (headers : List Buffer)
    (resume : ResumeFn) (statusText : JsString) (downRet : JsValue) (value : Buffer)
    (hvalue : contentEncodingValue headers = some value) :
    unrecognized [] ∧
    (h.ignoreUnknown = false →
      (value = [] ∨ (∃ v, value = v ++ [44]) ∨
        (∃ pre post, codingTokens value = pre ++ [] :: post ∧ ∀ t ∈ post, ¬ unrecognized t)) →
      onHeaders h statusCode headers resume statusText downRet
        = ⟨h, [], .error (.Error (str "Invalid coding: "))⟩) ∧
    (h.ignoreUnknown = true → h.decoder = none →
      (onHeaders h statusCode headers resume statusText downRet).state.stages
        = (((codingTokens value).filter (fun t => !t.isEmpty)).filterMap codingTable).reverse ∧
      (value = [] →
        onHeaders h statusCode headers resume statusText downRet
          = ⟨h, [.downstreamOnHeaders statusCode headers (.wrapper resume) statusText],
              .ok downRet⟩ ∧
        ∀ calls : List (Buffer × Bool × JsValue),
          trace h (onDataCalls calls)
            = calls.map (fun c => ⟨h, [.downstreamOnData c.1], .ok c.2.2⟩))) := by
  have hempty : unrecognized [] := by decide
  refine ⟨hempty, ?_, ?_⟩
  · intro hign hcase
    have hshape : ∃ pre post, codingTokens value = pre ++ [] :: post ∧
        ∀ t ∈ post, ¬ unrecognized t := by
      rcases hcase with rfl | ⟨v, rfl⟩ | hgen
      · exact ⟨[], [], rfl, fun t ht => absurd ht (List.not_mem_nil t)⟩
      · obtain ⟨l, hl⟩ := codingTokens_comma_end v
        exact ⟨l, [], hl, fun t ht => absurd ht (List.not_mem_nil t)⟩
      · exact hgen
    obtain ⟨pre, post, hl, hpost⟩ := hshape
    have herr : onHeaders h statusCode headers resume statusText downRet
        = ⟨h, [], .error (.Error (str "Invalid coding: " ++ []))⟩ := by
      apply onHeaders_error
      rw [hign, selectDecoders_of_value _ _ _ hvalue, hl]
      have hrev : (pre ++ [] :: post).reverse = post.reverse ++ [] :: pre.reverse := by simp
      rw [hrev]
      apply visitCodings_unknown
      · intro t ht
        have := hpost t (List.mem_reverse.mp ht)
        rwa [unrecognized_iff] at this
      · exact (unrecognized_iff []).mp hempty
    rw [herr, List.append_nil]
  · intro hign hfresh
    have hsel : selectDecoders h.ignoreUnknown headers
        = .ok ((codingTokens value).reverse.filterMap codingTable) := by
      rw [hign, selectDecoders_of_value _ _ _ hvalue, visitCodings_ignore]
      simp
    have hout := onHeaders_ok h statusCode headers resume statusText downRet _ hsel
    refine ⟨?_, ?_⟩
    · rw [hout, filterMap_filter_nonempty, ← List.filterMap_reverse]
      cases hds : (codingTokens value).reverse.filterMap codingTable with
      | nil => simp [buildPipeline, Handler.stages, hfresh]
      | cons d rest => rfl
    · intro hv
      subst hv
      have hnil : (codingTokens ([] : Buffer)).reverse.filterMap codingTable = [] := by decide
      rw [hnil] at hout
      exact ⟨hout, fun calls => (trace_passthrough h hfresh calls).1⟩

/-- C19, at the values `gzip,` and the empty one. -/
theorem C19_empty_token_is_unknown_witness :
    contentEncodingValue [contentEncodingName, bytes "gzip,"] = some (bytes "gzip,") ∧
    onHeaders (construct none) 200 [contentEncodingName, bytes "gzip,"] 0 (str "OK") .undefined
      = ⟨construct none, [], .error (.Error (str "Invalid coding: "))⟩ ∧
    onHeaders (construct none) 200 [contentEncodingName, bytes ""] 0 (str "OK") .undefined
      = ⟨construct none, [], .error (.Error (str "Invalid coding: "))⟩ ∧
    (onHeaders (construct (some ⟨some true⟩)) 200 [contentEncodingName, bytes ""] 0 (str "OK")
        .undefined).state.decoder = none :=
  ⟨by decide,
    (C19_empty_token_is_unknown (construct none) 200 [contentEncodingName, bytes "gzip,"] 0
      (str "OK") .undefined (bytes "gzip,") (by decide)).2.1 rfl
      (Or.inr (Or.inl ⟨bytes "gzip", by decide⟩)),
    (C19_empty_token_is_unknown (construct none) 200 [contentEncodingName, bytes ""] 0
      (str "OK") .undefined (bytes "") (by decide)).2.1 rfl (Or.inl rfl),
    by decide⟩

end ContentEncoding
